import Mathlib

/-!
# Verification of the Bitespeed identity reconciliation service

A shallow embedding of the contact model (`src/models/contact.ts`) and the
reconciliation service (`src/services/identity-service.ts`).  The database
table is modelled as a list of rows kept in insertion order together with
the serial-id counter; timestamps are natural numbers supplied by the
caller (`now`).  SQL `ORDER BY created_at ASC` leaves the relative order
of equal timestamps unspecified; since ids are assigned in insertion
order, the model resolves ties by ascending id, the order a stable scan
of the insertion-ordered table yields.  JavaScript `Array.prototype.sort`
is stable per the ECMAScript specification, which the model reflects by
using a stable insertion sort for the in-memory sort of
`mergePrimaryContacts`.
-/

namespace Bitespeed

/-- `InternalNamespace.LinkPrecedence` from `src/dto/internal-namespace.ts`. -/
inductive LinkPrecedence where
  | primary
  | secondary
deriving DecidableEq, Repr

/-- A contact row (`InternalNamespace.Contact` / one row of the `contacts`
table).  `none` in `email`/`phoneNumber` models SQL `NULL`; `none` in
`deletedAt` models a live row. -/
structure Contact where
  id : Nat
  phoneNumber : Option String
  email : Option String
  linkedId : Option Nat
  linkPrecedence : LinkPrecedence
  createdAt : Nat
  updatedAt : Nat
  deletedAt : Option Nat
deriving DecidableEq, Repr

/-- The `contacts` table: rows in insertion order plus the serial counter. -/
structure DBState where
  rows : List Contact
  nextId : Nat
deriving DecidableEq, Repr

/-- `InternalNamespace.IdentifyRequestBody`.  A `none` field models an
absent (or empty, hence falsy) request field. -/
structure IdentifyRequestBody where
  email : Option String
  phoneNumber : Option String
deriving DecidableEq, Repr

/-- The `contact` object of `InternalNamespace.IdentifyResponseBody`. -/
structure ContactResponse where
  primaryContactId : Nat
  emails : List String
  phoneNumbers : List String
  secondaryContactIds : List Nat
deriving DecidableEq, Repr

/-- Errors the service can surface: the explicit validation throw, the
`updateLinkPrecedence` not-found throw, and a runtime `TypeError` from
dereferencing an `undefined` value behind a non-null assertion. -/
inductive ServiceError where
  | validationError
  | notFoundError
  | typeError
deriving DecidableEq, Repr

instance {ε α : Type} [DecidableEq ε] [DecidableEq α] :
    DecidableEq (Except ε α) := fun x y =>
  match x, y with
  | Except.ok a, Except.ok b =>
      if h : a = b then isTrue (congrArg Except.ok h)
      else isFalse fun hc => h (Except.ok.inj hc)
  | Except.error a, Except.error b =>
      if h : a = b then isTrue (congrArg Except.error h)
      else isFalse fun hc => h (Except.error.inj hc)
  | Except.ok _, Except.error _ => isFalse fun hc => Except.noConfusion hc
  | Except.error _, Except.ok _ => isFalse fun hc => Except.noConfusion hc

/-- Row order used by the model for SQL query results: ascending
`created_at`, ties by ascending `id` (see the module docstring). -/
def rowLe (a b : Contact) : Prop :=
  a.createdAt < b.createdAt ∨ (a.createdAt = b.createdAt ∧ a.id ≤ b.id)

instance : DecidableRel rowLe := fun a b => by
  unfold rowLe; infer_instance

instance : IsTotal Contact rowLe where
  total a b := by
    unfold rowLe
    rcases Nat.lt_trichotomy a.createdAt b.createdAt with h | h | h
    · exact Or.inl (Or.inl h)
    · rcases Nat.le_total a.id b.id with h' | h'
      · exact Or.inl (Or.inr ⟨h, h'⟩)
      · exact Or.inr (Or.inr ⟨h.symm, h'⟩)
    · exact Or.inr (Or.inl h)

instance : IsTrans Contact rowLe where
  trans a b c hab hbc := by
    unfold rowLe at *
    rcases hab with h | ⟨h1, h2⟩
    · rcases hbc with h' | ⟨h1', _⟩
      · exact Or.inl (h.trans h')
      · exact Or.inl (h1' ▸ h)
    · rcases hbc with h' | ⟨h1', h2'⟩
      · exact Or.inl (h1 ▸ h')
      · exact Or.inr ⟨h1.trans h1', h2.trans h2'⟩

/-- The order produced by the SQL `ORDER BY created_at ASC` clauses. -/
def sortContacts (l : List Contact) : List Contact :=
  l.insertionSort rowLe

/-- `deleted_at IS NULL`. -/
def notDeleted (c : Contact) : Bool :=
  c.deletedAt = none

/-- The `WHERE` disjunction built by `Contact.findByEmailOrPhone`:
`email = $e OR phone_number = $p`, each conjunct present only when the
corresponding argument was supplied. -/
def matchesEmailOrPhone (email phoneNumber : Option String) (c : Contact) : Bool :=
  (match email with
   | some e => c.email = some e
   | none => false) ||
  (match phoneNumber with
   | some p => c.phoneNumber = some p
   | none => false)

/-- `Contact.findByEmailOrPhone` (`src/models/contact.ts:14`): returns the
non-deleted rows matching either value, ordered by `created_at`; with no
conditions it returns `[]` without querying. -/
def findByEmailOrPhone (s : DBState) (email phoneNumber : Option String) :
    List Contact :=
  if email = none ∧ phoneNumber = none then []
  else sortContacts (s.rows.filter fun c =>
    notDeleted c && matchesEmailOrPhone email phoneNumber c)

/-- `Contact.findLinkedContacts` (`src/models/contact.ts:56`): the row with
`id = primaryId` plus the rows with `linked_id = primaryId` (one level),
non-deleted, ordered by `created_at`. -/
def findLinkedContacts (s : DBState) (primaryId : Nat) : List Contact :=
  sortContacts (s.rows.filter fun c =>
    notDeleted c && (c.id = primaryId || c.linkedId = some primaryId))

/-- `Contact.create` (`src/models/contact.ts:74`): `INSERT` assigning the
serial id and `created_at`/`updated_at = now`. -/
def createContact (s : DBState) (phoneNumber email : Option String)
    (linkedId : Option Nat) (linkPrecedence : LinkPrecedence) (now : Nat) :
    Contact × DBState :=
  let c : Contact :=
    { id := s.nextId, phoneNumber := phoneNumber, email := email,
      linkedId := linkedId, linkPrecedence := linkPrecedence,
      createdAt := now, updatedAt := now, deletedAt := none }
  (c, { rows := s.rows ++ [c], nextId := s.nextId + 1 })

/-- The row mutation performed by the `UPDATE` of
`Contact.updateLinkPrecedence`: set `linked_id`, demote to `secondary`,
bump `updated_at`. -/
def demoteRow (linkedId now : Nat) (c : Contact) : Contact :=
  { c with linkedId := some linkedId,
           linkPrecedence := LinkPrecedence.secondary,
           updatedAt := now }

/-- `Contact.updateLinkPrecedence` (`src/models/contact.ts:102`):
`UPDATE ... WHERE id = $2 AND deleted_at IS NULL`; throws when no row was
updated. -/
def updateLinkPrecedence (s : DBState) (id linkedId : Nat) (now : Nat) :
    Except ServiceError DBState :=
  if (s.rows.filter fun c => c.id = id && notDeleted c).isEmpty then
    Except.error ServiceError.notFoundError
  else
    Except.ok
      { rows := s.rows.map fun c =>
          if c.id = id && notDeleted c then demoteRow linkedId now c else c,
        nextId := s.nextId }

/-- JavaScript strict equality between a row field (`null` when `none`)
and a request field (`undefined` when `none`): `null === undefined` is
`false`, so the two `none` cases never compare equal. -/
def jsStrictEq (a b : Option String) : Bool :=
  match a, b with
  | some x, some y => x = y
  | _, _ => false

/-- `IdentityService.isRequestCoveredByContacts`
(`src/services/identity-service.ts:130`): per-field coverage across the
given contacts.  The JS truthiness tests on the request fields are the
`Option` case splits. -/
def isRequestCoveredByContacts (contacts : List Contact)
    (request : IdentifyRequestBody) : Bool :=
  match request.email, request.phoneNumber with
  | some e, some p =>
      (contacts.any fun c => c.email = some e) &&
      (contacts.any fun c => c.phoneNumber = some p)
  | some e, none => contacts.any fun c => c.email = some e
  | none, some p => contacts.any fun c => c.phoneNumber = some p
  | none, none => false

/-- `IdentityService.needsNewSecondaryContact`
(`src/services/identity-service.ts:159`). -/
def needsNewSecondaryContact (existingContacts : List Contact)
    (request : IdentifyRequestBody) : Bool :=
  let exactMatch := existingContacts.any fun c =>
    jsStrictEq c.email request.email && jsStrictEq c.phoneNumber request.phoneNumber
  if exactMatch then false
  else
    let emailExists :=
      match request.email with
      | some e => existingContacts.any fun c => c.email = some e
      | none => true
    let phoneExists :=
      match request.phoneNumber with
      | some p => existingContacts.any fun c => c.phoneNumber = some p
      | none => true
    match request.email, request.phoneNumber with
    | some _, some _ => !exactMatch
    | some _, none => !emailExists
    | none, some _ => !phoneExists
    | none, none => false

/-- Insertion into the JS `Set` (insertion-ordered, duplicates dropped),
skipping falsy (`null`) values. -/
def dedupAppend (acc : List String) (x : Option String) : List String :=
  match x with
  | none => acc
  | some v => if v ∈ acc then acc else acc ++ [v]

/-- The `Set`-building loop of `buildResponse`: the primary's value first,
then each secondary's value in cluster order. -/
def collectValues (primary : Contact) (secondaries : List Contact)
    (f : Contact → Option String) : List String :=
  secondaries.foldl (fun acc c => dedupAppend acc (f c)) (dedupAppend [] (f primary))

/-- The swap of `buildResponse` (`src/services/identity-service.ts:229`):
if the primary's value is present and not already first, swap it to index
0.  `idxOf?` is always `some` in the reachable call (the value was
inserted), so the `none` fallback is unreachable. -/
def swapToFront (l : List String) (v : Option String) : List String :=
  match v with
  | none => l
  | some pv =>
      if l.head? = some pv then l
      else
        match l.head? with
        | none => l
        | some h =>
            let i := l.indexOf pv
            (l.set 0 (l.getD i h)).set i h

/-- `IdentityService.buildResponse` (`src/services/identity-service.ts:199`).
The `find(...)!` non-null assertion becomes a `typeError` when the fetched
cluster has no PRIMARY member. -/
def buildResponse (s : DBState) (primaryContactId : Nat) :
    Except ServiceError ContactResponse :=
  let linkedContacts := findLinkedContacts s primaryContactId
  match linkedContacts.find? (fun c => c.linkPrecedence = LinkPrecedence.primary) with
  | none => Except.error ServiceError.typeError
  | some primary =>
      let secondaries := linkedContacts.filter fun c =>
        c.linkPrecedence = LinkPrecedence.secondary
      let emailArray := swapToFront (collectValues primary secondaries (·.email)) primary.email
      let phoneArray :=
        swapToFront (collectValues primary secondaries (·.phoneNumber)) primary.phoneNumber
      Except.ok
        { primaryContactId := primary.id,
          emails := emailArray,
          phoneNumbers := phoneArray,
          secondaryContactIds := secondaries.map (·.id) }

/-- `IdentityService.createNewPrimaryContact`
(`src/services/identity-service.ts:73`). -/
def createNewPrimaryContact (s : DBState) (request : IdentifyRequestBody)
    (now : Nat) : Except ServiceError ContactResponse × DBState :=
  let (newContact, s') :=
    createContact s request.phoneNumber request.email none LinkPrecedence.primary now
  (Except.ok
    { primaryContactId := newContact.id,
      emails := match newContact.email with | some e => [e] | none => [],
      phoneNumbers := match newContact.phoneNumber with | some p => [p] | none => [],
      secondaryContactIds := [] }, s')

/-- The JS in-memory sort of `mergePrimaryContacts`
(`src/services/identity-service.ts:98`): stable sort by `createdAt` only. -/
def sortByCreatedAt (l : List Contact) : List Contact :=
  l.insertionSort fun a b => a.createdAt ≤ b.createdAt

/-- The demotion loop of `mergePrimaryContacts`
(`src/services/identity-service.ts:104`): sequential, each store call
independent; an error aborts the loop keeping the demotions already
applied. -/
def demoteAll (s : DBState) (contacts : List Contact) (survivorId now : Nat) :
    Option ServiceError × DBState :=
  match contacts with
  | [] => (none, s)
  | c :: rest =>
      match updateLinkPrecedence s c.id survivorId now with
      | Except.error e => (some e, s)
      | Except.ok s' => demoteAll s' rest survivorId now

/-- `IdentityService.mergePrimaryContacts`
(`src/services/identity-service.ts:93`). -/
def mergePrimaryContacts (s : DBState) (primaryContacts : List Contact)
    (request : IdentifyRequestBody) (now : Nat) :
    Except ServiceError ContactResponse × DBState :=
  match sortByCreatedAt primaryContacts with
  | [] => (Except.error ServiceError.typeError, s)
  | remainingPrimary :: contactsToMerge =>
      match demoteAll s contactsToMerge remainingPrimary.id now with
      | (some e, s₁) => (Except.error e, s₁)
      | (none, s₁) =>
          let covered :=
            isRequestCoveredByContacts (remainingPrimary :: contactsToMerge) request
          let s₂ :=
            if covered then s₁
            else (createContact s₁ request.phoneNumber request.email
                    (some remainingPrimary.id) LinkPrecedence.secondary now).2
          (buildResponse s₂ remainingPrimary.id, s₂)

/-- The anchor computation of `identifyContact`
(`src/services/identity-service.ts:46`): `primaryContacts[0] ||
findLinkedContacts(existingContacts[0].linkedId!)[0]`.  A `null`
`linkedId` makes the SQL lookup compare against `NULL`, matching no row. -/
def anchorContact (s : DBState) (existingContacts primaryContacts : List Contact) :
    Option Contact :=
  match primaryContacts.head? with
  | some p => some p
  | none =>
      match existingContacts.head? with
      | none => none
      | some first =>
          match first.linkedId with
          | some lid => (findLinkedContacts s lid).head?
          | none => none

/-- `IdentityService.identifyContact` (`src/services/identity-service.ts:14`).
Returns the response (or the error thrown) together with the store state
after the call; side effects already performed persist on the error path,
as without a wrapping transaction. -/
def identifyContact (s : DBState) (request : IdentifyRequestBody) (now : Nat) :
    Except ServiceError ContactResponse × DBState :=
  if request.email = none ∧ request.phoneNumber = none then
    (Except.error ServiceError.validationError, s)
  else
    let existingContacts := findByEmailOrPhone s request.email request.phoneNumber
    if existingContacts.isEmpty then
      createNewPrimaryContact s request now
    else
      let primaryContacts := existingContacts.filter fun c =>
        c.linkPrecedence = LinkPrecedence.primary
      if primaryContacts.length > 1 then
        mergePrimaryContacts s primaryContacts request now
      else
        match anchorContact s existingContacts primaryContacts with
        | none => (Except.error ServiceError.typeError, s)
        | some primaryContact =>
            let allLinkedContacts := findLinkedContacts s primaryContact.id
            let s₁ :=
              if needsNewSecondaryContact allLinkedContacts request then
                (createContact s request.phoneNumber request.email
                  (some primaryContact.id) LinkPrecedence.secondary now).2
              else s
            (buildResponse s₁ primaryContact.id, s₁)

/-! ## Spec-side and invariant definitions -/

/-- One directed link edge between row ids: the row with id `i` points at
`j` via `linkedId`. -/
def linkStep (s : DBState) (i j : Nat) : Prop :=
  ∃ c ∈ s.rows, c.id = i ∧ c.linkedId = some j

/-- Transitive reachability along `linkedId`, the spec's notion of the
identity cluster seen from a contact. -/
def reaches (s : DBState) : Nat → Nat → Prop :=
  Relation.ReflTransGen (linkStep s)

/-- Some row with id `j` is flagged PRIMARY. -/
def primAt (s : DBState) (j : Nat) : Prop :=
  ∃ c ∈ s.rows, c.id = j ∧ c.linkPrecedence = LinkPrecedence.primary

/-- The cluster reachable from id `i` contains exactly one PRIMARY. -/
def UniquePrimary (s : DBState) (i : Nat) : Prop :=
  ∃! j, reaches s i j ∧ primAt s j

/-- Invariant I1: every contact's identity cluster (the ids transitively
reachable via `linkedId`) contains exactly one PRIMARY. -/
def OnePrimaryPerCluster (s : DBState) : Prop :=
  ∀ c ∈ s.rows, UniquePrimary s c.id

/-- Store well-formedness from the data model: serial ids are strictly
increasing in insertion order, below the serial counter, and `linkedId`
references ids the store has issued. -/
def WF (s : DBState) : Prop :=
  List.Pairwise (fun a b : Contact => a.id < b.id) s.rows ∧
  ∀ c ∈ s.rows, c.id < s.nextId ∧ ∀ j, c.linkedId = some j → j < s.nextId

/-- The row `createContact` appends for a new secondary of `anchorId`. -/
def newSecondaryRow (s : DBState) (r : IdentifyRequestBody) (anchorId now : Nat) :
    Contact :=
  (createContact s r.phoneNumber r.email (some anchorId)
    LinkPrecedence.secondary now).1

/-- The spec's direct-branch creation test (claim C3's wording): with both
fields supplied a new secondary is required iff no cluster member carries
the exact pair; with one field supplied, iff no member carries that value. -/
def specDirectNeedsNew (cluster : List Contact) (r : IdentifyRequestBody) : Prop :=
  match r.email, r.phoneNumber with
  | some e, some p => ¬ ∃ c ∈ cluster, c.email = some e ∧ c.phoneNumber = some p
  | some e, none => ¬ ∃ c ∈ cluster, c.email = some e
  | none, some p => ¬ ∃ c ∈ cluster, c.phoneNumber = some p
  | none, none => False

/-- The spec's merge-branch coverage test (claim C2's wording): each
supplied field independently equals the corresponding field of some
matched primary row. -/
def specCovered (contacts : List Contact) (r : IdentifyRequestBody) : Prop :=
  (∀ e, r.email = some e → ∃ c ∈ contacts, c.email = some e) ∧
  (∀ p, r.phoneNumber = some p → ∃ c ∈ contacts, c.phoneNumber = some p)

/-! ## A concrete run of the service

Four `identify` calls from an empty store that produce a demoted former
primary whose child was never re-pointed: contact 3 still links to
contact 2 after contact 2 was demoted under contact 1. -/

def scnState0 : DBState := ⟨[], 1⟩
def scnReqA1 : IdentifyRequestBody := ⟨some "a", some "1"⟩
def scnReqB2 : IdentifyRequestBody := ⟨some "b", some "2"⟩
def scnReqC2 : IdentifyRequestBody := ⟨some "c", some "2"⟩
def scnReqA2 : IdentifyRequestBody := ⟨some "a", some "2"⟩
def scnReqC : IdentifyRequestBody := ⟨some "c", none⟩
def scnState1 : DBState := (identifyContact scnState0 scnReqA1 1).2
def scnState2 : DBState := (identifyContact scnState1 scnReqB2 2).2
def scnState3 : DBState := (identifyContact scnState2 scnReqC2 3).2
def scnState4 : DBState := (identifyContact scnState3 scnReqA2 4).2

/-- Two primaries sharing a `createdAt`, for exercising the merge branch
and its id tie-break. -/
def mergeState : DBState :=
  ⟨[⟨1, some "1", some "a", none, LinkPrecedence.primary, 5, 5, none⟩,
    ⟨2, some "2", some "b", none, LinkPrecedence.primary, 5, 5, none⟩], 3⟩

def mergeReq : IdentifyRequestBody := ⟨some "a", some "2"⟩

/-- The per-row mapping of the `UPDATE` in `updateLinkPrecedence`, named
for the invariant proofs. -/
def updFun (pid lid now : Nat) (c : Contact) : Contact :=
  if (decide (c.id = pid) && notDeleted c) = true then demoteRow lid now c else c

/-- A healthy primary/secondary pair, for witnesses. -/
def smallState : DBState :=
  ⟨[⟨1, some "1", some "a", none, LinkPrecedence.primary, 0, 0, none⟩,
    ⟨2, some "2", some "b", some 1, LinkPrecedence.secondary, 1, 1, none⟩], 3⟩

/-! ## Sorting and bookkeeping lemmas -/

theorem mem_sortContacts {l : List Contact} {x : Contact} :
    x ∈ sortContacts l ↔ x ∈ l :=
  List.mem_insertionSort _

theorem sorted_sortContacts (l : List Contact) :
    List.Sorted rowLe (sortContacts l) :=
  List.sorted_insertionSort _ _

theorem perm_sortContacts (l : List Contact) : (sortContacts l).Perm l :=
  List.perm_insertionSort _ _

theorem rowLe_createdAt {a b : Contact} (h : rowLe a b) :
    a.createdAt ≤ b.createdAt := by
  rcases h with h | ⟨h, _⟩
  · exact Nat.le_of_lt h
  · exact Nat.le_of_eq h

theorem sortByCreatedAt_of_sorted {l : List Contact}
    (h : List.Sorted rowLe l) : sortByCreatedAt l = l :=
  List.Sorted.insertionSort_eq (h.imp fun hab => rowLe_createdAt hab)

theorem id_inj {s : DBState} (hwf : WF s) :
    ∀ c ∈ s.rows, ∀ d ∈ s.rows, c.id = d.id → c = d := by
  have hnd : (s.rows.map Contact.id).Nodup := by
    show List.Pairwise _ _
    rw [List.pairwise_map]
    exact hwf.1.imp fun hab => Nat.ne_of_lt hab
  exact fun c hc d hd h => List.inj_on_of_nodup_map hnd hc hd h

/-- C9: for every request in which both email and phoneNumber are absent,
identify fails with the validation error before any store access: the
state is returned unchanged and no row is created or modified. -/
theorem claim_C9_validation_rejects_empty_request (s : DBState) (now : Nat) :
    identifyContact s ⟨none, none⟩ now =
      (Except.error ServiceError.validationError, s) := by
  simp [identifyContact]

theorem forall₂_map_self {α : Type} (f : α → α) (R : α → α → Prop)
    (l : List α) (h : ∀ c ∈ l, R c (f c)) : List.Forall₂ R l (l.map f) := by
  rw [List.forall₂_map_right_iff]
  exact List.forall₂_same.mpr h

/-- C8: a demotion updates only the demoted contact's own row — setting
linkPrecedence to SECONDARY, linkedId to the new primary's id and bumping
updatedAt while id, email, phoneNumber, createdAt (and deletedAt) are
unchanged — and leaves every other row untouched; in particular existing
SECONDARY children of the demoted contact keep their linkedId pointing at
it (no cascade). -/
theorem claim_C8_demotion_updates_only_own_row (s : DBState) (pid lid now : Nat)
    (hex : ∃ c ∈ s.rows, c.id = pid ∧ notDeleted c = true) :
    ∃ s₁, updateLinkPrecedence s pid lid now = Except.ok s₁ ∧
      s₁.nextId = s.nextId ∧
      List.Forall₂ (fun c c₁ =>
        c₁.id = c.id ∧ c₁.email = c.email ∧ c₁.phoneNumber = c.phoneNumber ∧
        c₁.createdAt = c.createdAt ∧ c₁.deletedAt = c.deletedAt ∧
        (c.id = pid ∧ notDeleted c = true →
          c₁.linkPrecedence = LinkPrecedence.secondary ∧
          c₁.linkedId = some lid ∧ c₁.updatedAt = now) ∧
        (¬(c.id = pid ∧ notDeleted c = true) → c₁ = c)) s.rows s₁.rows ∧
      ∀ c ∈ s.rows, c.linkedId = some pid → c.id ≠ pid → c ∈ s₁.rows := by
  obtain ⟨c₀, hc₀, hid₀, hdel₀⟩ := hex
  have hmemf : c₀ ∈ s.rows.filter fun c => c.id = pid && notDeleted c := by
    rw [List.mem_filter]
    exact ⟨hc₀, by simp [hid₀, hdel₀]⟩
  have hcond : ¬((s.rows.filter fun c => c.id = pid && notDeleted c).isEmpty = true) := by
    rw [List.isEmpty_iff]
    exact fun h => absurd (h ▸ hmemf) (List.not_mem_nil c₀)
  refine ⟨⟨s.rows.map fun c =>
      if (decide (c.id = pid) && notDeleted c) = true then demoteRow lid now c else c,
      s.nextId⟩, by rw [updateLinkPrecedence, if_neg hcond], rfl, ?_, ?_⟩
  · apply forall₂_map_self
    intro c _
    by_cases h : c.id = pid ∧ notDeleted c = true
    · have : (decide (c.id = pid) && notDeleted c) = true := by
        simp [h.1, h.2]
      simp only [this, if_pos]
      simp [demoteRow, h]
    · have : ¬((decide (c.id = pid) && notDeleted c) = true) := by
        simpa [Bool.and_eq_true, decide_eq_true_eq] using h
      simp only [Bool.false_eq_true, this, if_neg]
      simp [h]
  · intro c hc _ hne
    refine List.mem_map.mpr ⟨c, hc, ?_⟩
    have : ¬((decide (c.id = pid) && notDeleted c) = true) := by
      simp [hne]
    simp [this]

/-- Witness for C8 at a two-row store: demoting the primary row 1 under a
new primary id 5. -/
theorem claim_C8_demotion_updates_only_own_row_witness :
    (∃ c ∈ ([⟨1, none, some "a", none, LinkPrecedence.primary, 0, 0, none⟩,
             ⟨2, none, some "b", some 1, LinkPrecedence.secondary, 1, 1, none⟩] :
        List Contact), c.id = 1 ∧ notDeleted c = true) ∧
    ∃ s₁, updateLinkPrecedence
        ⟨[⟨1, none, some "a", none, LinkPrecedence.primary, 0, 0, none⟩,
          ⟨2, none, some "b", some 1, LinkPrecedence.secondary, 1, 1, none⟩], 3⟩
        1 5 9 = Except.ok s₁ ∧
      s₁.nextId = 3 ∧
      List.Forall₂ (fun c c₁ =>
        c₁.id = c.id ∧ c₁.email = c.email ∧ c₁.phoneNumber = c.phoneNumber ∧
        c₁.createdAt = c.createdAt ∧ c₁.deletedAt = c.deletedAt ∧
        (c.id = 1 ∧ notDeleted c = true →
          c₁.linkPrecedence = LinkPrecedence.secondary ∧
          c₁.linkedId = some 5 ∧ c₁.updatedAt = 9) ∧
        (¬(c.id = 1 ∧ notDeleted c = true) → c₁ = c))
        ([⟨1, none, some "a", none, LinkPrecedence.primary, 0, 0, none⟩,
          ⟨2, none, some "b", some 1, LinkPrecedence.secondary, 1, 1, none⟩] :
          List Contact) s₁.rows ∧
      ∀ c ∈ ([⟨1, none, some "a", none, LinkPrecedence.primary, 0, 0, none⟩,
              ⟨2, none, some "b", some 1, LinkPrecedence.secondary, 1, 1, none⟩] :
          List Contact), c.linkedId = some 1 → c.id ≠ 1 → c ∈ s₁.rows :=
  ⟨by decide, claim_C8_demotion_updates_only_own_row
    ⟨[⟨1, none, some "a", none, LinkPrecedence.primary, 0, 0, none⟩,
      ⟨2, none, some "b", some 1, LinkPrecedence.secondary, 1, 1, none⟩], 3⟩
    1 5 9 (by decide)⟩

/-! ## The direct (zero-or-one primary) branch -/

theorem jsStrictEq_none_right (a : Option String) : jsStrictEq a none = false := by
  cases a <;> rfl

theorem jsStrictEq_some_right (a : Option String) (x : String) :
    jsStrictEq a (some x) = true ↔ a = some x := by
  cases a <;> simp [jsStrictEq]

theorem findByEmailOrPhone_both_none (s : DBState) :
    findByEmailOrPhone s none none = [] := by
  simp [findByEmailOrPhone]

/-- The code's direct-branch creation test agrees with the spec's:
exact-pair when both fields are supplied, single-value otherwise. -/
theorem needsNewSecondaryContact_iff (cluster : List Contact)
    (r : IdentifyRequestBody) :
    needsNewSecondaryContact cluster r = true ↔ specDirectNeedsNew cluster r := by
  obtain ⟨eo, po⟩ := r
  cases eo with
  | none =>
    cases po with
    | none =>
        simp [needsNewSecondaryContact, specDirectNeedsNew, jsStrictEq_none_right]
    | some p =>
        simp only [needsNewSecondaryContact, specDirectNeedsNew,
          jsStrictEq_none_right, Bool.false_and, List.any_eq_true]
        simp [List.any_eq_true]
  | some e =>
    cases po with
    | none =>
        simp only [needsNewSecondaryContact, specDirectNeedsNew,
          jsStrictEq_none_right, Bool.and_false, List.any_eq_true]
        simp [List.any_eq_true]
    | some p =>
        simp only [needsNewSecondaryContact, specDirectNeedsNew, List.any_eq_true]
        by_cases h : ∃ c ∈ cluster,
            (jsStrictEq c.email (some e) && jsStrictEq c.phoneNumber (some p)) = true
        · simp only [h, if_true, if_pos]
          constructor
          · intro hfalse
            exact absurd hfalse (by simp)
          · intro hspec
            exfalso
            obtain ⟨c, hc, hb⟩ := h
            rw [Bool.and_eq_true, jsStrictEq_some_right, jsStrictEq_some_right] at hb
            exact hspec ⟨c, hc, hb.1, hb.2⟩
        · simp only [h, if_neg, if_false]
          constructor
          · intro _ hspec
            obtain ⟨c, hc, h1, h2⟩ := hspec
            exact h ⟨c, hc, by rw [Bool.and_eq_true, jsStrictEq_some_right,
              jsStrictEq_some_right]; exact ⟨h1, h2⟩⟩
          · intro _
            simp only [Bool.not_eq_true']
            rw [List.any_eq_false]
            intro c hc
            by_cases h1 : jsStrictEq c.email (some e) = true
            · by_cases h2 : jsStrictEq c.phoneNumber (some p) = true
              · exact absurd ⟨c, hc, by rw [h1, h2]; rfl⟩ h
              · rw [Bool.not_eq_true] at h2
                simp [h2]
            · rw [Bool.not_eq_true] at h1
              simp [h1]

/-- Reduction of `identifyContact` on the direct branch: at most one
matched primary and a resolved anchor. -/
theorem identifyContact_direct (s : DBState) (r : IdentifyRequestBody)
    (now : Nat) (a : Contact)
    (hne : findByEmailOrPhone s r.email r.phoneNumber ≠ [])
    (hle : ((findByEmailOrPhone s r.email r.phoneNumber).filter fun c =>
        c.linkPrecedence = LinkPrecedence.primary).length ≤ 1)
    (ha : anchorContact s (findByEmailOrPhone s r.email r.phoneNumber)
        ((findByEmailOrPhone s r.email r.phoneNumber).filter fun c =>
          c.linkPrecedence = LinkPrecedence.primary) = some a) :
    identifyContact s r now =
      (if needsNewSecondaryContact (findLinkedContacts s a.id) r = true then
        (buildResponse
          (createContact s r.phoneNumber r.email (some a.id)
            LinkPrecedence.secondary now).2 a.id,
         (createContact s r.phoneNumber r.email (some a.id)
            LinkPrecedence.secondary now).2)
      else (buildResponse s a.id, s)) := by
  have hval : ¬(r.email = none ∧ r.phoneNumber = none) := by
    intro h
    apply hne
    rw [h.1, h.2]
    exact findByEmailOrPhone_both_none s
  have hemp : (findByEmailOrPhone s r.email r.phoneNumber).isEmpty = false :=
    List.isEmpty_eq_false.mpr hne
  have hgt : ¬(((findByEmailOrPhone s r.email r.phoneNumber).filter fun c =>
      c.linkPrecedence = LinkPrecedence.primary).length > 1) :=
    Nat.not_lt.mpr hle
  unfold identifyContact
  rw [if_neg hval]
  simp only [hemp, Bool.false_eq_true, if_false, hgt, ha]
  by_cases h : needsNewSecondaryContact (findLinkedContacts s a.id) r = true <;>
    simp [h]

/-- C3: on the direct branch (zero or one matched PRIMARY, resolved
anchor), a new SECONDARY with `linkedId = anchor.id` is created iff: both
fields supplied and no cluster member carries both values simultaneously;
only email supplied and no member carries it; only phone supplied and no
member carries it. -/
theorem claim_C3_direct_branch_creates_iff (s : DBState) (r : IdentifyRequestBody)
    (now : Nat) (a : Contact)
    (hne : findByEmailOrPhone s r.email r.phoneNumber ≠ [])
    (hle : ((findByEmailOrPhone s r.email r.phoneNumber).filter fun c =>
        c.linkPrecedence = LinkPrecedence.primary).length ≤ 1)
    (ha : anchorContact s (findByEmailOrPhone s r.email r.phoneNumber)
        ((findByEmailOrPhone s r.email r.phoneNumber).filter fun c =>
          c.linkPrecedence = LinkPrecedence.primary) = some a) :
    ((identifyContact s r now).2.rows = s.rows ++ [newSecondaryRow s r a.id now] ↔
      specDirectNeedsNew (findLinkedContacts s a.id) r) ∧
    (¬ specDirectNeedsNew (findLinkedContacts s a.id) r →
      (identifyContact s r now).2 = s) := by
  rw [identifyContact_direct s r now a hne hle ha]
  by_cases h : needsNewSecondaryContact (findLinkedContacts s a.id) r = true
  · have hspec := (needsNewSecondaryContact_iff _ r).mp h
    simp only [h, if_pos]
    refine ⟨⟨fun _ => hspec, fun _ => rfl⟩, fun hn => absurd hspec hn⟩
  · have hspec : ¬ specDirectNeedsNew (findLinkedContacts s a.id) r :=
      fun hs => h ((needsNewSecondaryContact_iff _ r).mpr hs)
    simp only [h, if_neg, if_false]
    refine ⟨⟨fun habs => ?_, fun hs => absurd hs hspec⟩, fun _ => rfl⟩
    exfalso
    have := congrArg List.length habs
    simp at this

/-- Witness for C3: one primary `(a,1)` matched by request `(a,2)`; the
exact pair is absent, so a secondary is created. -/
theorem claim_C3_direct_branch_creates_iff_witness :
    let s : DBState :=
      ⟨[⟨1, some "1", some "a", none, LinkPrecedence.primary, 0, 0, none⟩], 2⟩
    let r : IdentifyRequestBody := ⟨some "a", some "2"⟩
    let a : Contact := ⟨1, some "1", some "a", none, LinkPrecedence.primary, 0, 0, none⟩
    ((identifyContact s r 7).2.rows = s.rows ++ [newSecondaryRow s r a.id 7] ↔
      specDirectNeedsNew (findLinkedContacts s a.id) r) ∧
    (¬ specDirectNeedsNew (findLinkedContacts s a.id) r →
      (identifyContact s r 7).2 = s) :=
  claim_C3_direct_branch_creates_iff _ _ 7 _ (by decide) (by decide) (by decide)

/-! ## Idempotence (claim C7) -/

/-- C7 (amended): on the direct branch, when the request's exact
email+phone pair is present on some member of the one-level cluster
fetched for the anchor (`findLinkedContacts(anchor.id)`), identify
creates no row, performs no demotion, leaves the store unchanged, and
repeating the call (at any later time) returns the same result. -/
theorem claim_C7_amended_idempotent_on_fetched_cluster (s : DBState)
    (r : IdentifyRequestBody) (now : Nat) (a : Contact) (e p : String)
    (he : r.email = some e) (hp : r.phoneNumber = some p)
    (hne : findByEmailOrPhone s r.email r.phoneNumber ≠ [])
    (hle : ((findByEmailOrPhone s r.email r.phoneNumber).filter fun c =>
        c.linkPrecedence = LinkPrecedence.primary).length ≤ 1)
    (ha : anchorContact s (findByEmailOrPhone s r.email r.phoneNumber)
        ((findByEmailOrPhone s r.email r.phoneNumber).filter fun c =>
          c.linkPrecedence = LinkPrecedence.primary) = some a)
    (hpair : ∃ c ∈ findLinkedContacts s a.id,
        c.email = some e ∧ c.phoneNumber = some p) :
    (identifyContact s r now).2 = s ∧
    ∀ now₂, identifyContact s r now₂ = identifyContact s r now := by
  have hnospec : ¬ specDirectNeedsNew (findLinkedContacts s a.id) r := by
    simp only [specDirectNeedsNew, he, hp]
    exact fun hcon => hcon hpair
  have hnn : ¬(needsNewSecondaryContact (findLinkedContacts s a.id) r = true) :=
    fun ht => hnospec ((needsNewSecondaryContact_iff _ _).mp ht)
  constructor
  · rw [identifyContact_direct s r now a hne hle ha, if_neg hnn]
  · intro now₂
    rw [identifyContact_direct s r now a hne hle ha, if_neg hnn,
      identifyContact_direct s r now₂ a hne hle ha, if_neg hnn]

/-- Witness for the amended C7: a single primary `(a,1)` and the identical
request; nothing changes and the repeat returns the same view. -/
theorem claim_C7_amended_idempotent_on_fetched_cluster_witness :
    let s : DBState :=
      ⟨[⟨1, some "1", some "a", none, LinkPrecedence.primary, 0, 0, none⟩], 2⟩
    let r : IdentifyRequestBody := ⟨some "a", some "1"⟩
    (identifyContact s r 6).2 = s ∧
    ∀ now₂, identifyContact s r now₂ = identifyContact s r 6 :=
  claim_C7_amended_idempotent_on_fetched_cluster _ _ 6
    ⟨1, some "1", some "a", none, LinkPrecedence.primary, 0, 0, none⟩ "a" "1"
    rfl rfl (by decide) (by decide) (by decide) (by decide)

/-- C7 fails as stated: in the reachable state `scnState4`, the request
`(c,2)` has its exact pair on matched contact 3, which belongs to the
cluster of primary 1 transitively (3 → 2 → 1); yet repeating the call that
previously created contact 3 adds a fourth row and returns a different
consolidated view than that earlier call. -/
theorem claim_C7_counterexample :
    (∃ c ∈ findByEmailOrPhone scnState4 scnReqC2.email scnReqC2.phoneNumber,
        c.email = some "c" ∧ c.phoneNumber = some "2" ∧ c.linkedId = some 2) ∧
    (∃ c ∈ scnState4.rows, c.id = 2 ∧ c.linkedId = some 1) ∧
    (identifyContact scnState2 scnReqC2 3).2 = scnState3 ∧
    (identifyContact scnState4 scnReqC2 5).2.rows.length =
      scnState4.rows.length + 1 ∧
    (identifyContact scnState4 scnReqC2 5).1.toOption ≠
      (identifyContact scnState2 scnReqC2 3).1.toOption := by
  decide

/-! ## Consolidation (claim C4) -/

theorem mem_dedupAppend {acc : List String} {o : Option String} {x : String} :
    x ∈ dedupAppend acc o ↔ x ∈ acc ∨ o = some x := by
  cases o with
  | none => simp [dedupAppend]
  | some v =>
    by_cases h : v ∈ acc
    · simp only [dedupAppend, h, if_pos]
      constructor
      · exact fun hx => Or.inl hx
      · rintro (hx | hx)
        · exact hx
        · cases hx
          exact h
    · simp only [dedupAppend, h, if_neg, if_false, List.mem_append,
        List.mem_singleton, Option.some.injEq]
      constructor
      · rintro (hx | hx)
        · exact Or.inl hx
        · exact Or.inr hx.symm
      · rintro (hx | hx)
        · exact Or.inl hx
        · exact Or.inr hx.symm

theorem nodup_dedupAppend {acc : List String} {o : Option String}
    (h : acc.Nodup) : (dedupAppend acc o).Nodup := by
  cases o with
  | none => exact h
  | some v =>
    by_cases hm : v ∈ acc
    · simpa [dedupAppend, hm] using h
    · simp only [dedupAppend, hm, if_neg, if_false]
      rw [List.nodup_append]
      refine ⟨h, List.nodup_singleton v, ?_⟩
      intro x hx hxv
      rw [List.mem_singleton] at hxv
      subst hxv
      exact hm hx

theorem dedupAppend_ne_nil {acc : List String} {o : Option String}
    (h : acc ≠ []) : dedupAppend acc o ≠ [] := by
  cases o with
  | none => exact h
  | some v =>
    by_cases hm : v ∈ acc
    · simpa [dedupAppend, hm]
    · simp only [dedupAppend, hm, if_neg, if_false]
      exact fun hc => h (List.append_eq_nil.mp hc).1

theorem head?_dedupAppend {acc : List String} {o : Option String}
    (h : acc ≠ []) : (dedupAppend acc o).head? = acc.head? := by
  cases o with
  | none => rfl
  | some v =>
    by_cases hm : v ∈ acc
    · simp [dedupAppend, hm]
    · simp only [dedupAppend, hm, if_neg, if_false]
      cases acc with
      | nil => exact absurd rfl h
      | cons a t => rfl

theorem foldl_dedup_mem (f : Contact → Option String) :
    ∀ (l : List Contact) (acc : List String) (x : String),
      (x ∈ l.foldl (fun acc c => dedupAppend acc (f c)) acc ↔
        x ∈ acc ∨ ∃ c ∈ l, f c = some x) := by
  intro l
  induction l with
  | nil => simp
  | cons c t ih =>
    intro acc x
    rw [List.foldl_cons, ih, mem_dedupAppend]
    constructor
    · rintro ((hx | hx) | ⟨d, hd, hfd⟩)
      · exact Or.inl hx
      · exact Or.inr ⟨c, List.mem_cons_self c t, hx⟩
      · exact Or.inr ⟨d, List.mem_cons_of_mem c hd, hfd⟩
    · rintro (hx | ⟨d, hd, hfd⟩)
      · exact Or.inl (Or.inl hx)
      · rcases List.mem_cons.mp hd with rfl | hd
        · exact Or.inl (Or.inr hfd)
        · exact Or.inr ⟨d, hd, hfd⟩

theorem foldl_dedup_nodup (f : Contact → Option String) :
    ∀ (l : List Contact) (acc : List String), acc.Nodup →
      (l.foldl (fun acc c => dedupAppend acc (f c)) acc).Nodup := by
  intro l
  induction l with
  | nil => exact fun acc h => h
  | cons c t ih => exact fun acc h => ih _ (nodup_dedupAppend h)

theorem foldl_dedup_head (f : Contact → Option String) :
    ∀ (l : List Contact) (acc : List String), acc ≠ [] →
      (l.foldl (fun acc c => dedupAppend acc (f c)) acc).head? = acc.head? := by
  intro l
  induction l with
  | nil => exact fun acc _ => rfl
  | cons c t ih =>
    intro acc h
    rw [List.foldl_cons, ih _ (dedupAppend_ne_nil h), head?_dedupAppend h]

theorem collectValues_mem (primary : Contact) (secondaries : List Contact)
    (f : Contact → Option String) (x : String) :
    x ∈ collectValues primary secondaries f ↔
      f primary = some x ∨ ∃ c ∈ secondaries, f c = some x := by
  rw [collectValues, foldl_dedup_mem, mem_dedupAppend]
  simp

theorem collectValues_nodup (primary : Contact) (secondaries : List Contact)
    (f : Contact → Option String) : (collectValues primary secondaries f).Nodup :=
  foldl_dedup_nodup f _ _ (nodup_dedupAppend List.nodup_nil)

theorem collectValues_head (primary : Contact) (secondaries : List Contact)
    (f : Contact → Option String) (v : String) (h : f primary = some v) :
    (collectValues primary secondaries f).head? = some v := by
  rw [collectValues, foldl_dedup_head]
  · rw [h]
    rfl
  · rw [h]
    simp [dedupAppend]

theorem swapToFront_of_head {l : List String} {v : Option String}
    (h : ∀ pv, v = some pv → l.head? = some pv) : swapToFront l v = l := by
  cases v with
  | none => rfl
  | some pv =>
    rw [swapToFront, if_pos (h pv rfl)]

theorem collectValues_swap_eq (primary : Contact) (secondaries : List Contact)
    (f : Contact → Option String) :
    swapToFront (collectValues primary secondaries f) (f primary) =
      collectValues primary secondaries f := by
  apply swapToFront_of_head
  intro pv hpv
  exact collectValues_head primary secondaries f pv hpv

/-- C4: every consolidated view has duplicate-free email/phone arrays
holding exactly the distinct non-null values across the fetched cluster;
the primary's email/phone (when present) sits at index 0; and
`secondaryContactIds` lists the SECONDARY members' ids in ascending
`(createdAt, id)` order. -/
theorem claim_C4_consolidated_view (s : DBState) (pid : Nat)
    (resp : ContactResponse)
    (hok : buildResponse s pid = Except.ok resp)
    (huniq : ∀ c ∈ findLinkedContacts s pid, ∀ d ∈ findLinkedContacts s pid,
      c.linkPrecedence = LinkPrecedence.primary →
      d.linkPrecedence = LinkPrecedence.primary → c = d) :
    resp.emails.Nodup ∧ resp.phoneNumbers.Nodup ∧
    (∀ v, v ∈ resp.emails ↔ ∃ c ∈ findLinkedContacts s pid, c.email = some v) ∧
    (∀ v, v ∈ resp.phoneNumbers ↔
      ∃ c ∈ findLinkedContacts s pid, c.phoneNumber = some v) ∧
    (∀ c ∈ findLinkedContacts s pid,
      c.linkPrecedence = LinkPrecedence.primary →
      (∀ e, c.email = some e → resp.emails.head? = some e) ∧
      (∀ p, c.phoneNumber = some p → resp.phoneNumbers.head? = some p)) ∧
    resp.secondaryContactIds =
      ((findLinkedContacts s pid).filter fun c =>
        c.linkPrecedence = LinkPrecedence.secondary).map Contact.id ∧
    List.Sorted rowLe ((findLinkedContacts s pid).filter fun c =>
      c.linkPrecedence = LinkPrecedence.secondary) := by
  rw [buildResponse] at hok
  cases hfind : (findLinkedContacts s pid).find?
      (fun c => decide (c.linkPrecedence = LinkPrecedence.primary)) with
  | none =>
    rw [hfind] at hok
    exact absurd hok (by simp)
  | some p =>
    rw [hfind] at hok
    have hresp := (Except.ok.injEq _ _).mp hok
    have hpmem : p ∈ findLinkedContacts s pid := List.mem_of_find?_eq_some hfind
    have hpprim : p.linkPrecedence = LinkPrecedence.primary := by
      have := List.find?_some hfind
      simpa using this
    have hemails : resp.emails =
        collectValues p ((findLinkedContacts s pid).filter fun c =>
          c.linkPrecedence = LinkPrecedence.secondary) Contact.email := by
      rw [← hresp]
      exact collectValues_swap_eq _ _ _
    have hphones : resp.phoneNumbers =
        collectValues p ((findLinkedContacts s pid).filter fun c =>
          c.linkPrecedence = LinkPrecedence.secondary) Contact.phoneNumber := by
      rw [← hresp]
      exact collectValues_swap_eq _ _ _
    have hmem : ∀ (f : Contact → Option String) (v : String),
        (f p = some v ∨ ∃ c ∈ (findLinkedContacts s pid).filter fun c =>
          c.linkPrecedence = LinkPrecedence.secondary, f c = some v) ↔
        ∃ c ∈ findLinkedContacts s pid, f c = some v := by
      intro f v
      constructor
      · rintro (hv | ⟨c, hc, hv⟩)
        · exact ⟨p, hpmem, hv⟩
        · exact ⟨c, (List.mem_filter.mp hc).1, hv⟩
      · rintro ⟨c, hc, hv⟩
        cases hcp : c.linkPrecedence with
        | primary =>
          have : c = p := huniq c hc p hpmem hcp hpprim
          exact Or.inl (this ▸ hv)
        | secondary =>
          exact Or.inr ⟨c, List.mem_filter.mpr ⟨hc, by simp [hcp]⟩, hv⟩
    refine ⟨?_, ?_, ?_, ?_, ?_, ?_, ?_⟩
    · rw [hemails]
      exact collectValues_nodup _ _ _
    · rw [hphones]
      exact collectValues_nodup _ _ _
    · intro v
      rw [hemails, collectValues_mem]
      exact hmem Contact.email v
    · intro v
      rw [hphones, collectValues_mem]
      exact hmem Contact.phoneNumber v
    · intro c hc hcp
      have hceq : c = p := huniq c hc p hpmem hcp hpprim
      subst hceq
      constructor
      · intro e he
        rw [hemails]
        exact collectValues_head _ _ _ e he
      · intro ph hph
        rw [hphones]
        exact collectValues_head _ _ _ ph hph
    · rw [← hresp]
    · exact List.Sorted.filter _ (sorted_sortContacts _)

/-- Witness for C4 at a two-member cluster sharing an email. -/
theorem claim_C4_consolidated_view_witness :
    let s : DBState :=
      ⟨[⟨1, some "1", some "a", none, LinkPrecedence.primary, 0, 0, none⟩,
        ⟨2, some "2", some "a", some 1, LinkPrecedence.secondary, 1, 1, none⟩], 3⟩
    ∃ resp, buildResponse s 1 = Except.ok resp ∧
      (resp.emails.Nodup ∧ resp.phoneNumbers.Nodup ∧
      (∀ v, v ∈ resp.emails ↔ ∃ c ∈ findLinkedContacts s 1, c.email = some v) ∧
      (∀ v, v ∈ resp.phoneNumbers ↔
        ∃ c ∈ findLinkedContacts s 1, c.phoneNumber = some v) ∧
      (∀ c ∈ findLinkedContacts s 1,
        c.linkPrecedence = LinkPrecedence.primary →
        (∀ e, c.email = some e → resp.emails.head? = some e) ∧
        (∀ p, c.phoneNumber = some p → resp.phoneNumbers.head? = some p)) ∧
      resp.secondaryContactIds =
        ((findLinkedContacts s 1).filter fun c =>
          c.linkPrecedence = LinkPrecedence.secondary).map Contact.id ∧
      List.Sorted rowLe ((findLinkedContacts s 1).filter fun c =>
        c.linkPrecedence = LinkPrecedence.secondary)) :=
  ⟨⟨1, ["a"], ["1", "2"], [2]⟩,
    rfl,
    claim_C4_consolidated_view _ 1 ⟨1, ["a"], ["1", "2"], [2]⟩ rfl
      (by decide)⟩

/-! ## The merge branch (claims C1, C2) -/

theorem updateLinkPrecedence_eq (s : DBState) (pid lid now : Nat)
    (hex : ∃ c ∈ s.rows, c.id = pid ∧ notDeleted c = true) :
    updateLinkPrecedence s pid lid now = Except.ok
      ⟨s.rows.map fun c =>
          if (decide (c.id = pid) && notDeleted c) = true then demoteRow lid now c
          else c,
        s.nextId⟩ := by
  obtain ⟨c₀, hc₀, hid₀, hdel₀⟩ := hex
  have hmemf : c₀ ∈ s.rows.filter fun c => c.id = pid && notDeleted c := by
    rw [List.mem_filter]
    exact ⟨hc₀, by simp [hid₀, hdel₀]⟩
  have hcond : ¬((s.rows.filter fun c => c.id = pid && notDeleted c).isEmpty = true) := by
    rw [List.isEmpty_iff]
    exact fun h => absurd (h ▸ hmemf) (List.not_mem_nil c₀)
  rw [updateLinkPrecedence, if_neg hcond]

theorem sorted_findByEmailOrPhone (s : DBState) (e p : Option String) :
    List.Sorted rowLe (findByEmailOrPhone s e p) := by
  rw [findByEmailOrPhone]
  split
  · exact List.sorted_nil
  · exact sorted_sortContacts _

theorem pairwise_ne_findByEmailOrPhone {s : DBState} (hwf : WF s)
    (e p : Option String) :
    List.Pairwise (fun a b : Contact => a.id ≠ b.id) (findByEmailOrPhone s e p) := by
  rw [findByEmailOrPhone]
  split
  · exact List.Pairwise.nil
  · have h1 : List.Pairwise (fun a b : Contact => a.id ≠ b.id) s.rows :=
      hwf.1.imp fun hab => Nat.ne_of_lt hab
    have h2 : List.Pairwise (fun a b : Contact => a.id ≠ b.id)
        (s.rows.filter fun c => notDeleted c && matchesEmailOrPhone e p c) :=
      List.Pairwise.sublist (List.filter_sublist _) h1
    exact ((perm_sortContacts _).pairwise_iff fun hxy => hxy.symm).mpr h2

theorem mem_rows_of_mem_findByEmailOrPhone {s : DBState} {e p : Option String}
    {c : Contact} (hc : c ∈ findByEmailOrPhone s e p) :
    c ∈ s.rows ∧ notDeleted c = true := by
  rw [findByEmailOrPhone] at hc
  split at hc
  · exact absurd hc (List.not_mem_nil c)
  · rw [mem_sortContacts, List.mem_filter, Bool.and_eq_true] at hc
    exact ⟨hc.1, hc.2.1⟩

/-- The demotion loop succeeds on pairwise-distinct live targets, demotes
each of them under the survivor and leaves rows with other ids in place. -/
theorem demoteAll_ok (svId now : Nat) :
    ∀ (rest : List Contact) (s : DBState),
      (∀ c ∈ rest, ∃ d ∈ s.rows, d.id = c.id ∧ notDeleted d = true) →
      List.Pairwise (fun a b : Contact => a.id ≠ b.id) rest →
      ∃ s₁, demoteAll s rest svId now = (none, s₁) ∧
        s₁.nextId = s.nextId ∧ s₁.rows.length = s.rows.length ∧
        (∀ c ∈ rest, ∃ d ∈ s₁.rows, d.id = c.id ∧
          d.linkPrecedence = LinkPrecedence.secondary ∧ d.linkedId = some svId) ∧
        (∀ c ∈ s.rows, (∀ x ∈ rest, c.id ≠ x.id) → c ∈ s₁.rows) := by
  intro rest
  induction rest with
  | nil =>
    intro s _ _
    exact ⟨s, rfl, rfl, rfl, by simp, fun c hc _ => hc⟩
  | cons c rest ih =>
    intro s hrows hpw
    obtain ⟨d, hd, hdid, hddel⟩ := hrows c (List.mem_cons_self c rest)
    have hupd := updateLinkPrecedence_eq s c.id svId now ⟨d, hd, hdid, hddel⟩
    set f : Contact → Contact := fun x =>
      if (decide (x.id = c.id) && notDeleted x) = true then demoteRow svId now x
      else x with hf
    have hpw' := List.pairwise_cons.mp hpw
    have hrest : ∀ x ∈ rest, ∃ e ∈ (s.rows.map f), e.id = x.id ∧ notDeleted e = true := by
      intro x hx
      obtain ⟨e, he, heid, hedel⟩ := hrows x (List.mem_cons_of_mem c hx)
      have hne : ¬(e.id = c.id) := by
        rw [heid]
        exact fun hxc => hpw'.1 x hx hxc.symm
      refine ⟨e, List.mem_map.mpr ⟨e, he, ?_⟩, heid, hedel⟩
      simp [hf, hne]
    obtain ⟨s₁, hdem, hnext, hlen, hdone, hkeep⟩ :=
      ih ⟨s.rows.map f, s.nextId⟩ hrest hpw'.2
    refine ⟨s₁, ?_, hnext, by rw [hlen]; exact List.length_map _ _, ?_, ?_⟩
    · rw [demoteAll, hupd]
      exact hdem
    · intro x hx
      rcases List.mem_cons.mp hx with rfl | hx
      · have hmemd : demoteRow svId now d ∈ s.rows.map f := by
          refine List.mem_map.mpr ⟨d, hd, ?_⟩
          simp [hf, hdid, hddel]
        have hxid : (demoteRow svId now d).id = x.id := hdid
        have hmem₁ : demoteRow svId now d ∈ s₁.rows := by
          apply hkeep _ hmemd
          exact fun y hy hxy => hpw'.1 y hy ((hxid.symm.trans hxy).symm).symm
        exact ⟨demoteRow svId now d, hmem₁, hxid, rfl, rfl⟩
      · exact hdone x hx
    · intro x hx hids
      have hxne : ¬(x.id = c.id) := hids c (List.mem_cons_self c rest)
      have : x ∈ s.rows.map f := by
        refine List.mem_map.mpr ⟨x, hx, ?_⟩
        simp [hf, hxne]
      exact hkeep x this fun y hy => hids y (List.mem_cons_of_mem c hy)

/-- Reduction of `identifyContact` on the merge branch. -/
theorem identifyContact_merge (s : DBState) (r : IdentifyRequestBody) (now : Nat)
    (hgt : 1 < ((findByEmailOrPhone s r.email r.phoneNumber).filter fun c =>
        c.linkPrecedence = LinkPrecedence.primary).length) :
    identifyContact s r now =
      mergePrimaryContacts s
        ((findByEmailOrPhone s r.email r.phoneNumber).filter fun c =>
          c.linkPrecedence = LinkPrecedence.primary) r now := by
  have hne : findByEmailOrPhone s r.email r.phoneNumber ≠ [] := by
    intro h
    rw [h] at hgt
    simp at hgt
  have hval : ¬(r.email = none ∧ r.phoneNumber = none) := by
    intro h
    apply hne
    rw [h.1, h.2]
    exact findByEmailOrPhone_both_none s
  have hemp : (findByEmailOrPhone s r.email r.phoneNumber).isEmpty = false :=
    List.isEmpty_eq_false.mpr hne
  unfold identifyContact
  rw [if_neg hval]
  simp only [hemp, Bool.false_eq_true, if_false, hgt, if_pos]

/-- Reduction of `mergePrimaryContacts` once the sort and the demotion
loop are resolved. -/
theorem mergePrimaryContacts_cons (s : DBState) (sv : Contact)
    (rest : List Contact) (l : List Contact) (r : IdentifyRequestBody)
    (now : Nat) (hsort : sortByCreatedAt l = sv :: rest) (s₁ : DBState)
    (hdem : demoteAll s rest sv.id now = (none, s₁)) :
    mergePrimaryContacts s l r now =
      (buildResponse (if isRequestCoveredByContacts (sv :: rest) r then s₁
          else (createContact s₁ r.phoneNumber r.email (some sv.id)
            LinkPrecedence.secondary now).2) sv.id,
       if isRequestCoveredByContacts (sv :: rest) r then s₁
          else (createContact s₁ r.phoneNumber r.email (some sv.id)
            LinkPrecedence.secondary now).2) := by
  unfold mergePrimaryContacts
  rw [hsort]
  simp only [hdem]

theorem sorted_head_rowLe {sv : Contact} {rest : List Contact}
    (h : List.Sorted rowLe (sv :: rest)) :
    ∀ c ∈ sv :: rest, rowLe sv c := by
  intro c hc
  rcases List.mem_cons.mp hc with rfl | hc
  · exact Or.inr ⟨rfl, Nat.le_refl _⟩
  · exact List.rel_of_sorted_cons h c hc

/-- C1: in the merge branch the surviving primary is the matched primary
minimal under ascending `(createdAt, id)` — with equal `createdAt` the
lower id survives — and every other matched primary is demoted to
SECONDARY with `linkedId` set to the survivor's id, the demotion sequence
being the ascending remainder of the sorted list. -/
theorem claim_C1_merge_survivor_minimal_and_demotes (s : DBState)
    (r : IdentifyRequestBody) (now : Nat) (hwf : WF s)
    (hgt : 1 < ((findByEmailOrPhone s r.email r.phoneNumber).filter fun c =>
        c.linkPrecedence = LinkPrecedence.primary).length) :
    ∃ sv rest,
      sortByCreatedAt ((findByEmailOrPhone s r.email r.phoneNumber).filter fun c =>
          c.linkPrecedence = LinkPrecedence.primary) = sv :: rest ∧
      sv :: rest = ((findByEmailOrPhone s r.email r.phoneNumber).filter fun c =>
          c.linkPrecedence = LinkPrecedence.primary) ∧
      (∀ c ∈ (findByEmailOrPhone s r.email r.phoneNumber).filter fun c =>
          c.linkPrecedence = LinkPrecedence.primary, rowLe sv c) ∧
      (∀ c ∈ (findByEmailOrPhone s r.email r.phoneNumber).filter fun c =>
          c.linkPrecedence = LinkPrecedence.primary,
        c.createdAt = sv.createdAt → c.id ≠ sv.id → sv.id < c.id) ∧
      List.Sorted rowLe (sv :: rest) ∧
      (∃ d ∈ (identifyContact s r now).2.rows, d.id = sv.id ∧
          d.linkPrecedence = LinkPrecedence.primary) ∧
      ∀ c ∈ rest, ∃ d ∈ (identifyContact s r now).2.rows, d.id = c.id ∧
          d.linkPrecedence = LinkPrecedence.secondary ∧ d.linkedId = some sv.id := by
  have hsorted : List.Sorted rowLe
      ((findByEmailOrPhone s r.email r.phoneNumber).filter fun c =>
        c.linkPrecedence = LinkPrecedence.primary) :=
    List.Sorted.filter _ (sorted_findByEmailOrPhone s r.email r.phoneNumber)
  have hpwne : List.Pairwise (fun a b : Contact => a.id ≠ b.id)
      ((findByEmailOrPhone s r.email r.phoneNumber).filter fun c =>
        c.linkPrecedence = LinkPrecedence.primary) :=
    List.Pairwise.sublist (List.filter_sublist _)
      (pairwise_ne_findByEmailOrPhone hwf r.email r.phoneNumber)
  have hsba := sortByCreatedAt_of_sorted hsorted
  cases hp : (findByEmailOrPhone s r.email r.phoneNumber).filter fun c =>
      c.linkPrecedence = LinkPrecedence.primary with
  | nil =>
    rw [hp] at hgt
    simp at hgt
  | cons sv rest =>
    rw [hp] at hsba hsorted hpwne
    have hgt' : 1 < ((findByEmailOrPhone s r.email r.phoneNumber).filter fun c =>
        c.linkPrecedence = LinkPrecedence.primary).length := hgt
    have hsort' : sortByCreatedAt
        ((findByEmailOrPhone s r.email r.phoneNumber).filter fun c =>
          c.linkPrecedence = LinkPrecedence.primary) = sv :: rest := by
      rw [hp]
      exact hsba
    have hmin : ∀ c ∈ sv :: rest, rowLe sv c := sorted_head_rowLe hsorted
    have hrows : ∀ x ∈ rest, ∃ d ∈ s.rows, d.id = x.id ∧ notDeleted d = true := by
      intro x hx
      have hxp : x ∈ (findByEmailOrPhone s r.email r.phoneNumber).filter fun c =>
          c.linkPrecedence = LinkPrecedence.primary := by
        rw [hp]
        exact List.mem_cons_of_mem sv hx
      have hxm := mem_rows_of_mem_findByEmailOrPhone (List.mem_filter.mp hxp).1
      exact ⟨x, hxm.1, rfl, hxm.2⟩
    have hpwc := List.pairwise_cons.mp hpwne
    obtain ⟨s₁, hdem, hnext, hlen, hdone, hkeep⟩ :=
      demoteAll_ok sv.id now rest s hrows hpwc.2
    have hsvp : sv ∈ (findByEmailOrPhone s r.email r.phoneNumber).filter fun c =>
        c.linkPrecedence = LinkPrecedence.primary := by
      rw [hp]
      exact List.mem_cons_self sv rest
    have hsvrow := mem_rows_of_mem_findByEmailOrPhone (List.mem_filter.mp hsvp).1
    have hsvprim : sv.linkPrecedence = LinkPrecedence.primary := by
      have := (List.mem_filter.mp hsvp).2
      simpa using this
    have hsv₁ : sv ∈ s₁.rows :=
      hkeep sv hsvrow.1 fun y hy => hpwc.1 y hy
    have hstate : (identifyContact s r now).2 =
        (if isRequestCoveredByContacts (sv :: rest) r then s₁
          else (createContact s₁ r.phoneNumber r.email (some sv.id)
            LinkPrecedence.secondary now).2) := by
      rw [identifyContact_merge s r now hgt',
        mergePrimaryContacts_cons s sv rest _ r now hsort' s₁ hdem]
    refine ⟨sv, rest, hsba, rfl, hmin, ?_, hsorted, ?_, ?_⟩
    · intro c hc hca hcid
      rcases hmin c hc with hlt | ⟨_, hle⟩
      · rw [hca] at hlt
        exact absurd hlt (Nat.lt_irrefl _)
      · exact Nat.lt_of_le_of_ne hle fun h => hcid h.symm
    · rw [hstate]
      split
      · exact ⟨sv, hsv₁, rfl, hsvprim⟩
      · exact ⟨sv, List.mem_append_left _ hsv₁, rfl, hsvprim⟩
    · intro c hc
      obtain ⟨d, hd, hdid, hdsec, hdlink⟩ := hdone c hc
      rw [hstate]
      split
      · exact ⟨d, hd, hdid, hdsec, hdlink⟩
      · exact ⟨d, List.mem_append_left _ hd, hdid, hdsec, hdlink⟩

/-- Witness for C1 at a store with two primaries of identical `createdAt`:
the lower id (contact 1) survives and contact 2 is demoted under it. -/
theorem claim_C1_merge_survivor_minimal_and_demotes_witness :
    (WF mergeState ∧
      1 < ((findByEmailOrPhone mergeState mergeReq.email
          mergeReq.phoneNumber).filter fun c =>
        c.linkPrecedence = LinkPrecedence.primary).length) ∧
    (∃ sv rest,
      sortByCreatedAt ((findByEmailOrPhone mergeState mergeReq.email
          mergeReq.phoneNumber).filter fun c =>
        c.linkPrecedence = LinkPrecedence.primary) = sv :: rest ∧
      sv :: rest = ((findByEmailOrPhone mergeState mergeReq.email
          mergeReq.phoneNumber).filter fun c =>
        c.linkPrecedence = LinkPrecedence.primary) ∧
      (∀ c ∈ (findByEmailOrPhone mergeState mergeReq.email
          mergeReq.phoneNumber).filter fun c =>
        c.linkPrecedence = LinkPrecedence.primary, rowLe sv c) ∧
      (∀ c ∈ (findByEmailOrPhone mergeState mergeReq.email
          mergeReq.phoneNumber).filter fun c =>
        c.linkPrecedence = LinkPrecedence.primary,
        c.createdAt = sv.createdAt → c.id ≠ sv.id → sv.id < c.id) ∧
      List.Sorted rowLe (sv :: rest) ∧
      (∃ d ∈ (identifyContact mergeState mergeReq 9).2.rows, d.id = sv.id ∧
          d.linkPrecedence = LinkPrecedence.primary) ∧
      ∀ c ∈ rest, ∃ d ∈ (identifyContact mergeState mergeReq 9).2.rows,
          d.id = c.id ∧ d.linkPrecedence = LinkPrecedence.secondary ∧
          d.linkedId = some sv.id) :=
  have hwf : WF mergeState :=
    ⟨by decide, by
      intro c hc
      rcases List.mem_cons.mp hc with rfl | hc
      · exact ⟨by decide, fun j hj => Option.noConfusion hj⟩
      · rcases List.mem_cons.mp hc with rfl | hc
        · exact ⟨by decide, fun j hj => Option.noConfusion hj⟩
        · exact absurd hc (List.not_mem_nil c)⟩
  ⟨⟨hwf, by decide⟩,
    claim_C1_merge_survivor_minimal_and_demotes mergeState mergeReq 9 hwf
      (by decide)⟩

/-- The code's merge-branch coverage test agrees with the spec's per-field
coverage. -/
theorem isRequestCoveredByContacts_iff (contacts : List Contact)
    (r : IdentifyRequestBody)
    (hval : ¬(r.email = none ∧ r.phoneNumber = none)) :
    isRequestCoveredByContacts contacts r = true ↔ specCovered contacts r := by
  obtain ⟨eo, po⟩ := r
  cases eo with
  | none =>
    cases po with
    | none => exact absurd ⟨rfl, rfl⟩ hval
    | some p => simp [isRequestCoveredByContacts, specCovered, List.any_eq_true]
  | some e =>
    cases po with
    | none => simp [isRequestCoveredByContacts, specCovered, List.any_eq_true]
    | some p => simp [isRequestCoveredByContacts, specCovered, List.any_eq_true]

/-- C2: in the merge branch a new SECONDARY carrying the request's
email/phone with `linkedId = survivor.id` is created iff the request is
not covered per-field across the matched primary rows, coverage being
individual-value coverage (each supplied field independently equal to the
corresponding field of some matched primary). -/
theorem claim_C2_merge_creates_iff_not_covered (s : DBState)
    (r : IdentifyRequestBody) (now : Nat) (hwf : WF s)
    (hgt : 1 < ((findByEmailOrPhone s r.email r.phoneNumber).filter fun c =>
        c.linkPrecedence = LinkPrecedence.primary).length) :
    ∃ sv rest s₁,
      sortByCreatedAt ((findByEmailOrPhone s r.email r.phoneNumber).filter fun c =>
          c.linkPrecedence = LinkPrecedence.primary) = sv :: rest ∧
      demoteAll s rest sv.id now = (none, s₁) ∧
      s₁.nextId = s.nextId ∧ s₁.rows.length = s.rows.length ∧
      (identifyContact s r now).2.rows =
        s₁.rows ++ (if isRequestCoveredByContacts (sv :: rest) r then []
          else [newSecondaryRow s r sv.id now]) ∧
      (isRequestCoveredByContacts (sv :: rest) r = true ↔
        specCovered ((findByEmailOrPhone s r.email r.phoneNumber).filter fun c =>
          c.linkPrecedence = LinkPrecedence.primary) r) := by
  have hval : ¬(r.email = none ∧ r.phoneNumber = none) := by
    intro h
    rw [h.1, h.2, findByEmailOrPhone_both_none] at hgt
    simp at hgt
  have hsorted : List.Sorted rowLe
      ((findByEmailOrPhone s r.email r.phoneNumber).filter fun c =>
        c.linkPrecedence = LinkPrecedence.primary) :=
    List.Sorted.filter _ (sorted_findByEmailOrPhone s r.email r.phoneNumber)
  have hpwne : List.Pairwise (fun a b : Contact => a.id ≠ b.id)
      ((findByEmailOrPhone s r.email r.phoneNumber).filter fun c =>
        c.linkPrecedence = LinkPrecedence.primary) :=
    List.Pairwise.sublist (List.filter_sublist _)
      (pairwise_ne_findByEmailOrPhone hwf r.email r.phoneNumber)
  have hsba := sortByCreatedAt_of_sorted hsorted
  cases hp : (findByEmailOrPhone s r.email r.phoneNumber).filter fun c =>
      c.linkPrecedence = LinkPrecedence.primary with
  | nil =>
    rw [hp] at hgt
    simp at hgt
  | cons sv rest =>
    rw [hp] at hsba hpwne
    have hgt' : 1 < ((findByEmailOrPhone s r.email r.phoneNumber).filter fun c =>
        c.linkPrecedence = LinkPrecedence.primary).length := hgt
    have hsort' : sortByCreatedAt
        ((findByEmailOrPhone s r.email r.phoneNumber).filter fun c =>
          c.linkPrecedence = LinkPrecedence.primary) = sv :: rest := by
      rw [hp]
      exact hsba
    have hrows : ∀ x ∈ rest, ∃ d ∈ s.rows, d.id = x.id ∧ notDeleted d = true := by
      intro x hx
      have hxp : x ∈ (findByEmailOrPhone s r.email r.phoneNumber).filter fun c =>
          c.linkPrecedence = LinkPrecedence.primary := by
        rw [hp]
        exact List.mem_cons_of_mem sv hx
      have hxm := mem_rows_of_mem_findByEmailOrPhone (List.mem_filter.mp hxp).1
      exact ⟨x, hxm.1, rfl, hxm.2⟩
    have hpwc := List.pairwise_cons.mp hpwne
    obtain ⟨s₁, hdem, hnext, hlen, _, _⟩ :=
      demoteAll_ok sv.id now rest s hrows hpwc.2
    have hstate : (identifyContact s r now).2 =
        (if isRequestCoveredByContacts (sv :: rest) r then s₁
          else (createContact s₁ r.phoneNumber r.email (some sv.id)
            LinkPrecedence.secondary now).2) := by
      rw [identifyContact_merge s r now hgt',
        mergePrimaryContacts_cons s sv rest _ r now hsort' s₁ hdem]
    refine ⟨sv, rest, s₁, hsba, hdem, hnext, hlen, ?_, ?_⟩
    · rw [hstate]
      split
      · simp
      · simp [createContact, newSecondaryRow, hnext]
    · exact isRequestCoveredByContacts_iff (sv :: rest) r hval

/-- Witness for C2 at the shared two-primary store: the request `(a,2)` is
covered per-field (email on contact 1, phone on contact 2), so no new row
is created even though no row carries the exact pair. -/
theorem claim_C2_merge_creates_iff_not_covered_witness :
    (WF mergeState ∧
      1 < ((findByEmailOrPhone mergeState mergeReq.email
          mergeReq.phoneNumber).filter fun c =>
        c.linkPrecedence = LinkPrecedence.primary).length) ∧
    (∃ sv rest s₁,
      sortByCreatedAt ((findByEmailOrPhone mergeState mergeReq.email
          mergeReq.phoneNumber).filter fun c =>
        c.linkPrecedence = LinkPrecedence.primary) = sv :: rest ∧
      demoteAll mergeState rest sv.id 9 = (none, s₁) ∧
      s₁.nextId = mergeState.nextId ∧ s₁.rows.length = mergeState.rows.length ∧
      (identifyContact mergeState mergeReq 9).2.rows =
        s₁.rows ++ (if isRequestCoveredByContacts (sv :: rest) mergeReq then []
          else [newSecondaryRow mergeState mergeReq sv.id 9]) ∧
      (isRequestCoveredByContacts (sv :: rest) mergeReq = true ↔
        specCovered ((findByEmailOrPhone mergeState mergeReq.email
            mergeReq.phoneNumber).filter fun c =>
          c.linkPrecedence = LinkPrecedence.primary) mergeReq)) :=
  have hwf : WF mergeState :=
    ⟨by decide, by
      intro c hc
      rcases List.mem_cons.mp hc with rfl | hc
      · exact ⟨by decide, fun j hj => Option.noConfusion hj⟩
      · rcases List.mem_cons.mp hc with rfl | hc
        · exact ⟨by decide, fun j hj => Option.noConfusion hj⟩
        · exact absurd hc (List.not_mem_nil c)⟩
  ⟨⟨hwf, by decide⟩,
    claim_C2_merge_creates_iff_not_covered mergeState mergeReq 9 hwf (by decide)⟩

/-! ## The anchor in the no-primary case (claim C6) and the missing-primary
crash (claim C10) -/

theorem head_sortContacts_of_strict_min (l : List Contact) (root : Contact)
    (hmem : root ∈ l)
    (hmin : ∀ c ∈ l, c ≠ root → root.createdAt < c.createdAt ∨
      (root.createdAt = c.createdAt ∧ root.id < c.id)) :
    (sortContacts l).head? = some root := by
  cases hs : sortContacts l with
  | nil =>
    rw [← mem_sortContacts (l := l), hs] at hmem
    exact absurd hmem (List.not_mem_nil root)
  | cons h t =>
    have hsorted := sorted_sortContacts l
    rw [hs] at hsorted
    have hhm : h ∈ l := by
      rw [← mem_sortContacts (l := l), hs]
      exact List.mem_cons_self h t
    by_cases heq : h = root
    · rw [heq]
      rfl
    · exfalso
      have hrm : root ∈ h :: t := by
        rw [← hs, mem_sortContacts]
        exact hmem
      rcases List.mem_cons.mp hrm with hr | hrt
      · exact heq hr.symm
      · have hle : rowLe h root := List.rel_of_sorted_cons hsorted root hrt
        have hlt := hmin h hhm heq
        rcases hle with hle | ⟨hle1, hle2⟩ <;> rcases hlt with hlt | ⟨hlt1, hlt2⟩ <;>
          omega

/-- C6 (amended): when the matched contacts contain no PRIMARY and the
contact referenced by the first matched secondary's `linkedId` exists, is
live, PRIMARY, and strictly oldest under `(createdAt, id)` among its
fetched cluster — as in every state where invariant I2 holds and
children are newer than their primary — the anchor is that PRIMARY
member of the fetched cluster. -/
theorem claim_C6_amended_anchor_is_primary_member (s : DBState)
    (e p : Option String) (first : Contact) (lid : Nat) (root : Contact)
    (hnp : ((findByEmailOrPhone s e p).filter fun c =>
        c.linkPrecedence = LinkPrecedence.primary) = [])
    (hfirst : (findByEmailOrPhone s e p).head? = some first)
    (hlid : first.linkedId = some lid)
    (hroot : root ∈ s.rows) (hrid : root.id = lid)
    (hrdel : notDeleted root = true)
    (hrprim : root.linkPrecedence = LinkPrecedence.primary)
    (hmin : ∀ c ∈ s.rows, notDeleted c = true →
      (c.id = lid ∨ c.linkedId = some lid) → c ≠ root →
      root.createdAt < c.createdAt ∨
        (root.createdAt = c.createdAt ∧ root.id < c.id)) :
    anchorContact s (findByEmailOrPhone s e p)
        ((findByEmailOrPhone s e p).filter fun c =>
          c.linkPrecedence = LinkPrecedence.primary) = some root ∧
    root.linkPrecedence = LinkPrecedence.primary ∧
    root ∈ findLinkedContacts s lid := by
  have hrmem : root ∈ findLinkedContacts s lid := by
    rw [findLinkedContacts, mem_sortContacts, List.mem_filter]
    exact ⟨hroot, by simp [hrdel, hrid]⟩
  have hhead : (findLinkedContacts s lid).head? = some root := by
    rw [findLinkedContacts]
    apply head_sortContacts_of_strict_min
    · rw [List.mem_filter]
      exact ⟨hroot, by simp [hrdel, hrid]⟩
    · intro c hc hne
      rw [List.mem_filter, Bool.and_eq_true] at hc
      refine hmin c hc.1 hc.2.1 ?_ hne
      have := hc.2.2
      simpa using this
  rw [anchorContact, hnp]
  simp only [List.head?_nil, hfirst, hlid, hhead]
  exact ⟨by trivial, hrprim, hrmem⟩

/-- Witness for the amended C6: a primary with one secondary child; a
request matching only the child anchors at the primary. -/
theorem claim_C6_amended_anchor_is_primary_member_witness :
    anchorContact smallState
        (findByEmailOrPhone smallState (some "b") none)
        ((findByEmailOrPhone smallState (some "b") none).filter fun c =>
            c.linkPrecedence = LinkPrecedence.primary) =
      some ⟨1, some "1", some "a", none, LinkPrecedence.primary, 0, 0, none⟩ ∧
    (⟨1, some "1", some "a", none, LinkPrecedence.primary, 0, 0, none⟩ :
      Contact).linkPrecedence = LinkPrecedence.primary ∧
    (⟨1, some "1", some "a", none, LinkPrecedence.primary, 0, 0, none⟩ :
      Contact) ∈ findLinkedContacts smallState 1 :=
  claim_C6_amended_anchor_is_primary_member smallState (some "b") none
    ⟨2, some "2", some "b", some 1, LinkPrecedence.secondary, 1, 1, none⟩ 1
    ⟨1, some "1", some "a", none, LinkPrecedence.primary, 0, 0, none⟩
    (by decide) (by decide) (by decide) (by decide) (by decide) (by decide)
    (by decide) (by decide)

/-- C6 fails as stated: in the reachable state `scnState4` the request
matching only contact 3 (a secondary whose `linkedId` points at the
demoted contact 2) resolves the anchor to contact 2 — a SECONDARY member
of the fetched set `findLinkedContacts(2)` — not a PRIMARY. -/
theorem claim_C6_counterexample :
    ((findByEmailOrPhone scnState4 scnReqC.email scnReqC.phoneNumber).filter
        fun c => c.linkPrecedence = LinkPrecedence.primary) = [] ∧
    (∃ first, (findByEmailOrPhone scnState4 scnReqC.email
        scnReqC.phoneNumber).head? = some first ∧ first.linkedId = some 2) ∧
    (∃ a, anchorContact scnState4
        (findByEmailOrPhone scnState4 scnReqC.email scnReqC.phoneNumber)
        ((findByEmailOrPhone scnState4 scnReqC.email scnReqC.phoneNumber).filter
          fun c => c.linkPrecedence = LinkPrecedence.primary) = some a ∧
      a.id = 2 ∧ a.linkPrecedence = LinkPrecedence.secondary ∧
      a ∈ findLinkedContacts scnState4 2) := by
  decide

/-- C10: when the one-level cluster fetched for the consolidation root
contains no PRIMARY member, `buildResponse` hits the unchecked non-null
assertion and identify surfaces a runtime TypeError instead of a view —
and such a state is reachable: after the four-call run, identify on the
request matching only the orphaned contact 3 throws. -/
theorem claim_C10_missing_primary_means_type_error :
    (∀ (s : DBState) (pid : Nat),
      (∀ c ∈ findLinkedContacts s pid,
        c.linkPrecedence ≠ LinkPrecedence.primary) →
      buildResponse s pid = Except.error ServiceError.typeError) ∧
    (identifyContact scnState4 scnReqC 5).1 =
      Except.error ServiceError.typeError ∧
    (∃ c ∈ scnState4.rows, c.id = 2 ∧
      c.linkPrecedence = LinkPrecedence.secondary ∧
      ∃ d ∈ scnState4.rows, d.linkedId = some 2) := by
  refine ⟨?_, by decide⟩
  intro s pid hnp
  rw [buildResponse]
  have hfind : (findLinkedContacts s pid).find?
      (fun c => decide (c.linkPrecedence = LinkPrecedence.primary)) = none := by
    rw [List.find?_eq_none]
    intro x hx
    simpa using hnp x hx
  rw [hfind]

/-- Witness for C10's generic part at the reachable primary-less cluster
of contact 2. -/
theorem claim_C10_missing_primary_means_type_error_witness :
    buildResponse scnState4 2 = Except.error ServiceError.typeError :=
  claim_C10_missing_primary_means_type_error.1 scnState4 2 (by decide)

/-! ## Invariant preservation (claim C5): reachability over `linkedId` -/

theorem mem_of_head? {α : Type} {l : List α} {x : α} (h : l.head? = some x) :
    x ∈ l := by
  cases l with
  | nil => exact absurd h (by simp)
  | cons a t =>
    have : a = x := by simpa using h
    rw [← this]
    exact List.mem_cons_self a t

theorem reaches_bound {s : DBState} (hwf : WF s) {i j : Nat}
    (h : reaches s i j) (hi : i < s.nextId) : j < s.nextId := by
  induction h with
  | refl => exact hi
  | tail _ hstep _ =>
    obtain ⟨c, hc, _, hclink⟩ := hstep
    exact ((hwf.2 c hc).2 _ hclink)

theorem primAt_bound {s : DBState} (hwf : WF s) {j : Nat} (h : primAt s j) :
    j < s.nextId := by
  obtain ⟨c, hc, hcid, _⟩ := h
  exact hcid ▸ (hwf.2 c hc).1

theorem linkStep_append {s : DBState} {new : Contact} {m : Nat} {i j : Nat}
    (h : linkStep s i j) : linkStep ⟨s.rows ++ [new], m⟩ i j := by
  obtain ⟨c, hc, hcid, hclink⟩ := h
  exact ⟨c, List.mem_append_left _ hc, hcid, hclink⟩

theorem reaches_append_of_reaches {s : DBState} {new : Contact} {m : Nat}
    {i j : Nat} (h : reaches s i j) : reaches ⟨s.rows ++ [new], m⟩ i j :=
  Relation.ReflTransGen.mono (fun _ _ => linkStep_append) h

theorem linkStep_append_old {s : DBState} {new : Contact} {m : Nat}
    (hwf : WF s) (hnew : new.id = s.nextId) {i j : Nat}
    (h : linkStep ⟨s.rows ++ [new], m⟩ i j) (hi : i < s.nextId) :
    linkStep s i j ∧ j < s.nextId := by
  obtain ⟨c, hc, hcid, hclink⟩ := h
  rcases List.mem_append.mp hc with hc | hc
  · exact ⟨⟨c, hc, hcid, hclink⟩, (hwf.2 c hc).2 _ hclink⟩
  · rw [List.mem_singleton] at hc
    subst hc
    rw [hnew] at hcid
    omega

theorem reaches_append_old {s : DBState} {new : Contact} {m : Nat}
    (hwf : WF s) (hnew : new.id = s.nextId) {i j : Nat} (hi : i < s.nextId) :
    reaches ⟨s.rows ++ [new], m⟩ i j ↔ reaches s i j := by
  constructor
  · intro h
    revert hi
    induction h using Relation.ReflTransGen.head_induction_on with
    | refl => exact fun _ => Relation.ReflTransGen.refl
    | head hstep _ ih =>
      intro ha
      obtain ⟨hstep', hb⟩ := linkStep_append_old hwf hnew hstep ha
      exact Relation.ReflTransGen.head hstep' (ih hb)
  · exact reaches_append_of_reaches

theorem primAt_append {s : DBState} {new : Contact} {m : Nat} {j : Nat} :
    primAt ⟨s.rows ++ [new], m⟩ j ↔
      primAt s j ∨ (new.id = j ∧ new.linkPrecedence = LinkPrecedence.primary) := by
  constructor
  · rintro ⟨c, hc, hcid, hcp⟩
    rcases List.mem_append.mp hc with hc | hc
    · exact Or.inl ⟨c, hc, hcid, hcp⟩
    · rw [List.mem_singleton] at hc
      subst hc
      exact Or.inr ⟨hcid, hcp⟩
  · rintro (⟨c, hc, hcid, hcp⟩ | ⟨hid, hp⟩)
    · exact ⟨c, List.mem_append_left _ hc, hcid, hcp⟩
    · exact ⟨new, List.mem_append_right _ (List.mem_singleton_self new), hid, hp⟩

theorem reaches_append_new {s : DBState} {new : Contact} {m : Nat}
    (hwf : WF s) (hnew : new.id = s.nextId) {j : Nat} :
    reaches ⟨s.rows ++ [new], m⟩ s.nextId j ↔
      j = s.nextId ∨ ∃ t, new.linkedId = some t ∧
        reaches ⟨s.rows ++ [new], m⟩ t j := by
  constructor
  · intro h
    rcases Relation.ReflTransGen.cases_head h with heq | ⟨k, hstep, hrest⟩
    · exact Or.inl heq.symm
    · obtain ⟨c, hc, hcid, hclink⟩ := hstep
      rcases List.mem_append.mp hc with hc | hc
      · have := (hwf.2 c hc).1
        omega
      · rw [List.mem_singleton] at hc
        subst hc
        exact Or.inr ⟨k, hclink, hrest⟩
  · rintro (rfl | ⟨t, hlink, hrest⟩)
    · exact Relation.ReflTransGen.refl
    · refine Relation.ReflTransGen.head ?_ hrest
      exact ⟨new, List.mem_append_right _ (List.mem_singleton_self new),
        hnew, hlink⟩

theorem UniquePrimary_append_old {s : DBState} {new : Contact} {m : Nat}
    (hwf : WF s) (hnew : new.id = s.nextId) {i : Nat} (hi : i < s.nextId)
    (hup : UniquePrimary s i) : UniquePrimary ⟨s.rows ++ [new], m⟩ i := by
  obtain ⟨j₀, ⟨hr₀, hp₀⟩, hu₀⟩ := hup
  refine ⟨j₀, ⟨reaches_append_of_reaches hr₀, primAt_append.mpr (Or.inl hp₀)⟩, ?_⟩
  rintro j ⟨hr', hp'⟩
  have hrs : reaches s i j := (reaches_append_old hwf hnew hi).mp hr'
  have hj : j < s.nextId := reaches_bound hwf hrs hi
  rcases primAt_append.mp hp' with hp | ⟨hid, _⟩
  · exact hu₀ j ⟨hrs, hp⟩
  · rw [hnew] at hid
    omega

/-- Creating a fresh PRIMARY contact preserves well-formedness. -/
theorem WF_create (s : DBState) (ph em : Option String) (lkd : Option Nat)
    (lp : LinkPrecedence) (now : Nat) (hwf : WF s)
    (hlk : ∀ t, lkd = some t → t < s.nextId) :
    WF (createContact s ph em lkd lp now).2 := by
  refine ⟨?_, ?_⟩
  · show List.Pairwise _
      (s.rows ++ [(⟨s.nextId, ph, em, lkd, lp, now, now, none⟩ : Contact)])
    rw [List.pairwise_append]
    refine ⟨hwf.1, List.pairwise_singleton _ _, ?_⟩
    intro a ha b hb
    rw [List.mem_singleton] at hb
    subst hb
    exact (hwf.2 a ha).1
  · show ∀ c ∈ s.rows ++ [(⟨s.nextId, ph, em, lkd, lp, now, now, none⟩ : Contact)],
      c.id < s.nextId + 1 ∧ ∀ j, c.linkedId = some j → j < s.nextId + 1
    intro c hc
    rcases List.mem_append.mp hc with hc | hc
    · have := hwf.2 c hc
      exact ⟨by omega, fun t ht => by have := this.2 t ht; omega⟩
    · rw [List.mem_singleton] at hc
      subst hc
      refine ⟨Nat.lt_succ_self s.nextId, fun t ht => ?_⟩
      have := hlk t ht
      omega

/-- Creating a fresh PRIMARY contact preserves the one-primary invariant:
the new contact forms its own singleton cluster. -/
theorem Inv_create_primary (s : DBState) (ph em : Option String) (now : Nat)
    (hwf : WF s) (hinv : OnePrimaryPerCluster s) :
    OnePrimaryPerCluster
      (createContact s ph em none LinkPrecedence.primary now).2 := by
  intro c hc
  rcases List.mem_append.mp hc with hc | hc
  · exact UniquePrimary_append_old hwf rfl ((hwf.2 c hc).1) (hinv c hc)
  · rw [List.mem_singleton] at hc
    subst hc
    refine ⟨s.nextId, ⟨Relation.ReflTransGen.refl,
      primAt_append.mpr (Or.inr ⟨rfl, rfl⟩)⟩, ?_⟩
    rintro j ⟨hr', _⟩
    rcases (reaches_append_new hwf rfl).mp hr' with rfl | ⟨t, ht, _⟩
    · rfl
    · exact Option.noConfusion ht

/-- Creating a SECONDARY linked to an existing contact preserves the
one-primary invariant: the new contact joins that contact's cluster. -/
theorem Inv_create_secondary (s : DBState) (ph em : Option String) (now : Nat)
    (a : Contact) (ha : a ∈ s.rows) (hwf : WF s)
    (hinv : OnePrimaryPerCluster s) :
    OnePrimaryPerCluster
      (createContact s ph em (some a.id) LinkPrecedence.secondary now).2 := by
  intro c hc
  rcases List.mem_append.mp hc with hc | hc
  · exact UniquePrimary_append_old hwf rfl ((hwf.2 c hc).1) (hinv c hc)
  · rw [List.mem_singleton] at hc
    subst hc
    have haid : a.id < s.nextId := (hwf.2 a ha).1
    obtain ⟨j₀, ⟨hr₀, hp₀⟩, hu₀⟩ := hinv a ha
    have hstep : linkStep
        ⟨s.rows ++ [(createContact s ph em (some a.id)
          LinkPrecedence.secondary now).1], s.nextId + 1⟩ s.nextId a.id :=
      ⟨_, List.mem_append_right _ (List.mem_singleton_self _), rfl, rfl⟩
    refine ⟨j₀, ⟨Relation.ReflTransGen.head hstep
      (reaches_append_of_reaches hr₀), primAt_append.mpr (Or.inl hp₀)⟩, ?_⟩
    rintro j ⟨hr', hp'⟩
    have hjprim : primAt s j := by
      rcases primAt_append.mp hp' with hp | ⟨hid, hlp⟩
      · exact hp
      · exact absurd hlp (by simp [createContact])
    rcases (reaches_append_new hwf rfl).mp hr' with rfl | ⟨t, ht, hrt⟩
    · have := primAt_bound hwf hjprim
      omega
    · have ht2 : some a.id = some t := ht
      have ht' : t = a.id := (Option.some.inj ht2).symm
      subst ht'
      exact hu₀ j ⟨(reaches_append_old hwf rfl haid).mp hrt, hjprim⟩

theorem rtg_avoid {α : Type} (r : α → α → Prop) (p : α) {i j : α}
    (h : Relation.ReflTransGen r i j) :
    Relation.ReflTransGen (fun a b => r a b ∧ a ≠ p) i j ∨
      (Relation.ReflTransGen (fun a b => r a b ∧ a ≠ p) i p ∧
        Relation.ReflTransGen r p j) := by
  induction h using Relation.ReflTransGen.head_induction_on with
  | refl => exact Or.inl Relation.ReflTransGen.refl
  | @head a c hstep hrest ih =>
    by_cases hap : a = p
    · subst hap
      exact Or.inr ⟨Relation.ReflTransGen.refl,
        Relation.ReflTransGen.head hstep hrest⟩
    · rcases ih with h1 | ⟨h1, h2⟩
      · exact Or.inl (Relation.ReflTransGen.head ⟨hstep, hap⟩ h1)
      · exact Or.inr ⟨Relation.ReflTransGen.head ⟨hstep, hap⟩ h1, h2⟩

theorem linkStep_update {s : DBState} (hwf : WF s) {pid svId now : Nat}
    {P : Contact} (hP : P ∈ s.rows) (hPid : P.id = pid)
    (hPdel : notDeleted P = true) (i j : Nat) :
    linkStep ⟨s.rows.map (updFun pid svId now), s.nextId⟩ i j ↔
      ((i ≠ pid ∧ linkStep s i j) ∨ (i = pid ∧ j = svId)) := by
  constructor
  · rintro ⟨c', hc', hcid, hclink⟩
    obtain ⟨c, hc, rfl⟩ := List.mem_map.mp hc'
    by_cases hcond : (decide (c.id = pid) && notDeleted c) = true
    · rw [updFun, if_pos hcond] at hcid hclink
      have hcid' : c.id = i := hcid
      have hclink' : some svId = some j := hclink
      rw [Bool.and_eq_true, decide_eq_true_eq] at hcond
      exact Or.inr ⟨by rw [← hcid']; exact hcond.1,
        (Option.some.inj hclink').symm⟩
    · rw [updFun, if_neg hcond] at hcid hclink
      by_cases hip : i = pid
      · exfalso
        apply hcond
        rw [Bool.and_eq_true, decide_eq_true_eq]
        have hcP : c = P :=
          id_inj hwf c hc P hP (by rw [hcid, hip, hPid])
        exact ⟨by rw [hcid, hip], by rw [hcP]; exact hPdel⟩
      · exact Or.inl ⟨hip, ⟨c, hc, hcid, hclink⟩⟩
  · rintro (⟨hip, ⟨c, hc, hcid, hclink⟩⟩ | ⟨hip, hjs⟩)
    · refine ⟨c, List.mem_map.mpr ⟨c, hc, ?_⟩, hcid, hclink⟩
      have hcnd : ¬((decide (c.id = pid) && notDeleted c) = true) := by
        rw [Bool.and_eq_true, decide_eq_true_eq]
        rintro ⟨h1, _⟩
        exact hip (by rw [← hcid, h1])
      rw [updFun, if_neg hcnd]
    · refine ⟨demoteRow svId now P, List.mem_map.mpr ⟨P, hP, ?_⟩, ?_, ?_⟩
      · rw [updFun, if_pos]
        rw [Bool.and_eq_true, decide_eq_true_eq]
        exact ⟨hPid, hPdel⟩
      · rw [hip]
        exact hPid
      · rw [hjs]
        rfl

theorem primAt_update {s : DBState} (hwf : WF s) {pid svId now : Nat}
    {P : Contact} (hP : P ∈ s.rows) (hPid : P.id = pid)
    (hPdel : notDeleted P = true) (j : Nat) :
    primAt ⟨s.rows.map (updFun pid svId now), s.nextId⟩ j ↔
      (primAt s j ∧ j ≠ pid) := by
  constructor
  · rintro ⟨c', hc', hcid, hcp⟩
    obtain ⟨c, hc, rfl⟩ := List.mem_map.mp hc'
    by_cases hcond : (decide (c.id = pid) && notDeleted c) = true
    · rw [updFun, if_pos hcond] at hcp
      exact absurd hcp (by rw [demoteRow]; simp)
    · rw [updFun, if_neg hcond] at hcid hcp
      refine ⟨⟨c, hc, hcid, hcp⟩, ?_⟩
      intro hjp
      apply hcond
      rw [Bool.and_eq_true, decide_eq_true_eq]
      have hcP : c = P := id_inj hwf c hc P hP (by rw [hcid, hjp, hPid])
      exact ⟨by rw [hcid, hjp], by rw [hcP]; exact hPdel⟩
  · rintro ⟨⟨c, hc, hcid, hcp⟩, hj⟩
    refine ⟨c, List.mem_map.mpr ⟨c, hc, ?_⟩, hcid, hcp⟩
    have hcnd : ¬((decide (c.id = pid) && notDeleted c) = true) := by
      rw [Bool.and_eq_true, decide_eq_true_eq]
      rintro ⟨h1, _⟩
      exact hj (by rw [← hcid, h1])
    rw [updFun, if_neg hcnd]

theorem avoid_update_iff {s : DBState} (hwf : WF s) {pid svId now : Nat}
    {P : Contact} (hP : P ∈ s.rows) (hPid : P.id = pid)
    (hPdel : notDeleted P = true) (i j : Nat) :
    (linkStep ⟨s.rows.map (updFun pid svId now), s.nextId⟩ i j ∧ i ≠ pid) ↔
      (linkStep s i j ∧ i ≠ pid) := by
  constructor
  · rintro ⟨hstep, hne⟩
    rcases (linkStep_update hwf hP hPid hPdel i j).mp hstep with ⟨_, h⟩ | ⟨h, _⟩
    · exact ⟨h, hne⟩
    · exact absurd h hne
  · rintro ⟨hstep, hne⟩
    exact ⟨(linkStep_update hwf hP hPid hPdel i j).mpr (Or.inl ⟨hne, hstep⟩), hne⟩

theorem reaches_update_of_not_reaching {s : DBState} (hwf : WF s)
    {pid svId now : Nat} {P : Contact} (hP : P ∈ s.rows) (hPid : P.id = pid)
    (hPdel : notDeleted P = true) {i : Nat} (hni : ¬ reaches s i pid) (j : Nat) :
    reaches ⟨s.rows.map (updFun pid svId now), s.nextId⟩ i j ↔ reaches s i j := by
  constructor
  · intro h
    rcases rtg_avoid _ pid h with h1 | ⟨h1, _⟩
    · have h2 : Relation.ReflTransGen (fun a b => linkStep s a b ∧ a ≠ pid) i j :=
        Relation.ReflTransGen.mono (fun a b hab =>
          (avoid_update_iff hwf hP hPid hPdel a b).mp hab) h1
      exact Relation.ReflTransGen.mono (fun a b hab => hab.1) h2
    · have h2 : Relation.ReflTransGen (fun a b => linkStep s a b ∧ a ≠ pid) i pid :=
        Relation.ReflTransGen.mono (fun a b hab =>
          (avoid_update_iff hwf hP hPid hPdel a b).mp hab) h1
      exact absurd (Relation.ReflTransGen.mono (fun a b hab => hab.1) h2) hni
  · intro h
    rcases rtg_avoid _ pid h with h1 | ⟨h1, _⟩
    · have h2 : Relation.ReflTransGen (fun a b =>
          linkStep ⟨s.rows.map (updFun pid svId now), s.nextId⟩ a b ∧ a ≠ pid) i j :=
        Relation.ReflTransGen.mono (fun a b hab =>
          (avoid_update_iff hwf hP hPid hPdel a b).mpr hab) h1
      exact Relation.ReflTransGen.mono (fun a b hab => hab.1) h2
    · exact absurd (Relation.ReflTransGen.mono
        (fun a b (hab : linkStep s a b ∧ a ≠ pid) => hab.1) h1) hni

theorem reaches_update_into_pid {s : DBState} (hwf : WF s)
    {pid svId now : Nat} {P : Contact} (hP : P ∈ s.rows) (hPid : P.id = pid)
    (hPdel : notDeleted P = true) {i : Nat} (h : reaches s i pid) :
    reaches ⟨s.rows.map (updFun pid svId now), s.nextId⟩ i pid := by
  have havoid : ∀ {k : Nat},
      Relation.ReflTransGen (fun a b => linkStep s a b ∧ a ≠ pid) i k →
      reaches ⟨s.rows.map (updFun pid svId now), s.nextId⟩ i k := by
    intro k h1
    have h2 : Relation.ReflTransGen (fun a b =>
        linkStep ⟨s.rows.map (updFun pid svId now), s.nextId⟩ a b ∧ a ≠ pid) i k :=
      Relation.ReflTransGen.mono (fun a b hab =>
        (avoid_update_iff hwf hP hPid hPdel a b).mpr hab) h1
    exact Relation.ReflTransGen.mono (fun a b hab => hab.1) h2
  rcases rtg_avoid _ pid h with h1 | ⟨h1, _⟩
  · exact havoid h1
  · exact havoid h1

theorem reaches_update_from_pid {s : DBState} (hwf : WF s)
    {pid svId now : Nat} {P : Contact} (hP : P ∈ s.rows) (hPid : P.id = pid)
    (hPdel : notDeleted P = true) (j : Nat) :
    reaches ⟨s.rows.map (updFun pid svId now), s.nextId⟩ pid j ↔
      (j = pid ∨ reaches ⟨s.rows.map (updFun pid svId now), s.nextId⟩ svId j) := by
  constructor
  · intro h
    rcases Relation.ReflTransGen.cases_head h with heq | ⟨k, hstep, hrest⟩
    · exact Or.inl heq.symm
    · rcases (linkStep_update hwf hP hPid hPdel pid k).mp hstep with
        ⟨hne, _⟩ | ⟨_, rfl⟩
      · exact absurd rfl hne
      · exact Or.inr hrest
  · rintro (rfl | h)
    · exact Relation.ReflTransGen.refl
    · exact Relation.ReflTransGen.head
        ((linkStep_update hwf hP hPid hPdel pid svId).mpr (Or.inr ⟨rfl, rfl⟩)) h

theorem updFun_id (pid svId now : Nat) (c : Contact) :
    (updFun pid svId now c).id = c.id := by
  rw [updFun]
  split <;> rfl

/-- Demoting a live PRIMARY under another PRIMARY preserves the
one-primary invariant: every cluster that reached the demoted contact now
drains into the survivor's cluster. -/
theorem Inv_update {s : DBState} (hwf : WF s) (hinv : OnePrimaryPerCluster s)
    {pid svId now : Nat} {P Sv : Contact}
    (hP : P ∈ s.rows) (hPid : P.id = pid) (hPdel : notDeleted P = true)
    (hPprim : P.linkPrecedence = LinkPrecedence.primary)
    (hSv : Sv ∈ s.rows) (hSvId : Sv.id = svId)
    (hSvprim : Sv.linkPrecedence = LinkPrecedence.primary)
    (hne : pid ≠ svId) :
    OnePrimaryPerCluster ⟨s.rows.map (updFun pid svId now), s.nextId⟩ := by
  have hpidprim : primAt s pid := ⟨P, hP, hPid, hPprim⟩
  have hsvprim : primAt s svId := ⟨Sv, hSv, hSvId, hSvprim⟩
  have hupSv : UniquePrimary s svId := hSvId ▸ hinv Sv hSv
  have hnotSvPid : ¬ reaches s svId pid := by
    intro h
    obtain ⟨k₀, _, hu₀⟩ := hupSv
    have h1 := hu₀ svId ⟨Relation.ReflTransGen.refl, hsvprim⟩
    have h2 := hu₀ pid ⟨h, hpidprim⟩
    exact hne (h2.trans h1.symm)
  intro c' hc'
  obtain ⟨c, hc, rfl⟩ := List.mem_map.mp hc'
  rw [UniquePrimary, updFun_id]
  by_cases hre : reaches s c.id pid
  · have hupd_sv : primAt ⟨s.rows.map (updFun pid svId now), s.nextId⟩ svId :=
      (primAt_update hwf hP hPid hPdel svId).mpr ⟨hsvprim, fun h => hne h.symm⟩
    refine ⟨svId, ⟨?_, hupd_sv⟩, ?_⟩
    · exact Relation.ReflTransGen.tail
        (reaches_update_into_pid hwf hP hPid hPdel hre)
        ((linkStep_update hwf hP hPid hPdel pid svId).mpr (Or.inr ⟨rfl, rfl⟩))
    · rintro j ⟨hr', hp'⟩
      obtain ⟨hpj, hjne⟩ := (primAt_update hwf hP hPid hPdel j).mp hp'
      rcases rtg_avoid _ pid hr' with h1 | ⟨_, h2⟩
      · have h2 : Relation.ReflTransGen
            (fun a b => linkStep s a b ∧ a ≠ pid) c.id j :=
          Relation.ReflTransGen.mono (fun a b hab =>
            (avoid_update_iff hwf hP hPid hPdel a b).mp hab) h1
        have h3 : reaches s c.id j :=
          Relation.ReflTransGen.mono (fun a b hab => hab.1) h2
        obtain ⟨j₀, _, hu₀⟩ := hinv c hc
        have ha := hu₀ pid ⟨hre, hpidprim⟩
        have hb := hu₀ j ⟨h3, hpj⟩
        exact absurd (hb.trans ha.symm) hjne
      · rcases (reaches_update_from_pid hwf hP hPid hPdel j).mp h2 with rfl | h3
        · exact absurd rfl hjne
        · have h4 : reaches s svId j :=
            (reaches_update_of_not_reaching hwf hP hPid hPdel hnotSvPid j).mp h3
          obtain ⟨k₀, _, hu₀⟩ := hupSv
          have ha := hu₀ svId ⟨Relation.ReflTransGen.refl, hsvprim⟩
          have hb := hu₀ j ⟨h4, hpj⟩
          exact hb.trans ha.symm
  · obtain ⟨j₀, ⟨hr₀, hp₀⟩, hu₀⟩ := hinv c hc
    have hj₀ne : j₀ ≠ pid := fun h => hre (h ▸ hr₀)
    refine ⟨j₀,
      ⟨(reaches_update_of_not_reaching hwf hP hPid hPdel hre j₀).mpr hr₀,
        (primAt_update hwf hP hPid hPdel j₀).mpr ⟨hp₀, hj₀ne⟩⟩, ?_⟩
    rintro j ⟨hr', hp'⟩
    obtain ⟨hpj, _⟩ := (primAt_update hwf hP hPid hPdel j).mp hp'
    exact hu₀ j
      ⟨(reaches_update_of_not_reaching hwf hP hPid hPdel hre j).mp hr', hpj⟩

theorem WF_update {s : DBState} (hwf : WF s) {pid svId now : Nat}
    (hsv : svId < s.nextId) :
    WF ⟨s.rows.map (updFun pid svId now), s.nextId⟩ := by
  constructor
  · rw [List.pairwise_map]
    refine hwf.1.imp ?_
    intro a b hab
    rw [updFun_id, updFun_id]
    exact hab
  · intro c' hc'
    obtain ⟨c, hc, rfl⟩ := List.mem_map.mp hc'
    refine ⟨by rw [updFun_id]; exact (hwf.2 c hc).1, ?_⟩
    intro t ht
    rw [updFun] at ht
    split at ht
    · have ht' : some svId = some t := ht
      rw [← Option.some.inj ht']
      exact hsv
    · exact (hwf.2 c hc).2 t ht

theorem updateLinkPrecedence_eq_updFun (s : DBState) (pid lid now : Nat)
    (hex : ∃ c ∈ s.rows, c.id = pid ∧ notDeleted c = true) :
    updateLinkPrecedence s pid lid now =
      Except.ok ⟨s.rows.map (updFun pid lid now), s.nextId⟩ :=
  updateLinkPrecedence_eq s pid lid now hex

/-- The demotion loop of the merge branch preserves well-formedness and
the one-primary invariant, and keeps the survivor's row primary. -/
theorem Inv_demoteAll (svId now : Nat) :
    ∀ (rest : List Contact) (s : DBState), WF s → OnePrimaryPerCluster s →
      (∃ d ∈ s.rows, d.id = svId ∧ d.linkPrecedence = LinkPrecedence.primary ∧
        notDeleted d = true) →
      (∀ c ∈ rest, c.id ≠ svId ∧ ∃ d ∈ s.rows, d.id = c.id ∧
        notDeleted d = true ∧ d.linkPrecedence = LinkPrecedence.primary) →
      List.Pairwise (fun a b : Contact => a.id ≠ b.id) rest →
      ∃ s₁, demoteAll s rest svId now = (none, s₁) ∧
        WF s₁ ∧ OnePrimaryPerCluster s₁ ∧ s₁.nextId = s.nextId ∧
        (∃ d ∈ s₁.rows, d.id = svId ∧
          d.linkPrecedence = LinkPrecedence.primary ∧ notDeleted d = true) := by
  intro rest
  induction rest with
  | nil =>
    intro s hwf hinv hsv _ _
    exact ⟨s, rfl, hwf, hinv, rfl, hsv⟩
  | cons c rest ih =>
    intro s hwf hinv hsv hrest hpw
    obtain ⟨hcne, d, hd, hdid, hddel, hdprim⟩ :=
      hrest c (List.mem_cons_self c rest)
    obtain ⟨dv, hdv, hdvid, hdvprim, hdvdel⟩ := hsv
    have hupd := updateLinkPrecedence_eq_updFun s c.id svId now ⟨d, hd, hdid, hddel⟩
    have hsvlt : svId < s.nextId := hdvid ▸ (hwf.2 dv hdv).1
    have hwf' : WF ⟨s.rows.map (updFun c.id svId now), s.nextId⟩ :=
      WF_update hwf hsvlt
    have hinv' : OnePrimaryPerCluster
        ⟨s.rows.map (updFun c.id svId now), s.nextId⟩ :=
      Inv_update hwf hinv hd hdid hddel hdprim hdv hdvid hdvprim hcne
    have hdv' : dv ∈ s.rows.map (updFun c.id svId now) := by
      refine List.mem_map.mpr ⟨dv, hdv, ?_⟩
      have hcnd : ¬((decide (dv.id = c.id) && notDeleted dv) = true) := by
        rw [Bool.and_eq_true, decide_eq_true_eq]
        rintro ⟨h1, _⟩
        exact hcne (by rw [← h1]; exact hdvid)
      rw [updFun, if_neg hcnd]
    have hpwc := List.pairwise_cons.mp hpw
    have hrest' : ∀ x ∈ rest, x.id ≠ svId ∧
        ∃ e ∈ s.rows.map (updFun c.id svId now), e.id = x.id ∧
          notDeleted e = true ∧ e.linkPrecedence = LinkPrecedence.primary := by
      intro x hx
      obtain ⟨hxne, e, he, heid, hedel, heprim⟩ :=
        hrest x (List.mem_cons_of_mem c hx)
      refine ⟨hxne, e, List.mem_map.mpr ⟨e, he, ?_⟩, heid, hedel, heprim⟩
      have hcnd : ¬((decide (e.id = c.id) && notDeleted e) = true) := by
        rw [Bool.and_eq_true, decide_eq_true_eq]
        rintro ⟨h1, _⟩
        exact hpwc.1 x hx (by rw [← heid, h1])
      rw [updFun, if_neg hcnd]
    obtain ⟨s₁, hdem, hwf₁, hinv₁, hnext₁, hsv₁⟩ :=
      ih ⟨s.rows.map (updFun c.id svId now), s.nextId⟩ hwf' hinv'
        ⟨dv, hdv', hdvid, hdvprim, hdvdel⟩ hrest' hpwc.2
    refine ⟨s₁, ?_, hwf₁, hinv₁, hnext₁, hsv₁⟩
    rw [demoteAll, hupd]
    exact hdem

theorem identifyContact_validation (s : DBState) (r : IdentifyRequestBody)
    (now : Nat) (hval : r.email = none ∧ r.phoneNumber = none) :
    identifyContact s r now = (Except.error ServiceError.validationError, s) := by
  unfold identifyContact
  rw [if_pos hval]

theorem identifyContact_nomatch (s : DBState) (r : IdentifyRequestBody)
    (now : Nat) (hval : ¬(r.email = none ∧ r.phoneNumber = none))
    (hemp : findByEmailOrPhone s r.email r.phoneNumber = []) :
    identifyContact s r now = createNewPrimaryContact s r now := by
  unfold identifyContact
  rw [if_neg hval]
  simp only [hemp, List.isEmpty_nil, if_true]

theorem identifyContact_direct_none (s : DBState) (r : IdentifyRequestBody)
    (now : Nat)
    (hne : findByEmailOrPhone s r.email r.phoneNumber ≠ [])
    (hle : ((findByEmailOrPhone s r.email r.phoneNumber).filter fun c =>
        c.linkPrecedence = LinkPrecedence.primary).length ≤ 1)
    (hanone : anchorContact s (findByEmailOrPhone s r.email r.phoneNumber)
        ((findByEmailOrPhone s r.email r.phoneNumber).filter fun c =>
          c.linkPrecedence = LinkPrecedence.primary) = none) :
    identifyContact s r now = (Except.error ServiceError.typeError, s) := by
  have hval : ¬(r.email = none ∧ r.phoneNumber = none) := by
    intro h
    apply hne
    rw [h.1, h.2]
    exact findByEmailOrPhone_both_none s
  have hemp : (findByEmailOrPhone s r.email r.phoneNumber).isEmpty = false :=
    List.isEmpty_eq_false.mpr hne
  have hgt : ¬(((findByEmailOrPhone s r.email r.phoneNumber).filter fun c =>
      c.linkPrecedence = LinkPrecedence.primary).length > 1) :=
    Nat.not_lt.mpr hle
  unfold identifyContact
  rw [if_neg hval]
  simp only [hemp, Bool.false_eq_true, if_false, hgt, hanone]

theorem anchorContact_mem {s : DBState} {e p : Option String} {a : Contact}
    (ha : anchorContact s (findByEmailOrPhone s e p)
        ((findByEmailOrPhone s e p).filter fun c =>
          c.linkPrecedence = LinkPrecedence.primary) = some a) :
    a ∈ s.rows := by
  rw [anchorContact] at ha
  cases hh : ((findByEmailOrPhone s e p).filter fun c =>
      c.linkPrecedence = LinkPrecedence.primary).head? with
  | some q =>
    rw [hh] at ha
    have haq : some q = some a := ha
    rw [← Option.some.inj haq]
    exact (mem_rows_of_mem_findByEmailOrPhone
      (List.mem_filter.mp (mem_of_head? hh)).1).1
  | none =>
    rw [hh] at ha
    cases hh2 : (findByEmailOrPhone s e p).head? with
    | none =>
      rw [hh2] at ha
      exact absurd ha (by simp)
    | some first =>
      rw [hh2] at ha
      cases hh3 : first.linkedId with
      | none =>
        have ha2 : (match first.linkedId with
            | some lid => (findLinkedContacts s lid).head?
            | none => none) = some a := ha
        rw [hh3] at ha2
        exact absurd ha2 (by simp)
      | some lid =>
        have ha2 : (match first.linkedId with
            | some lid => (findLinkedContacts s lid).head?
            | none => none) = some a := ha
        rw [hh3] at ha2
        have ha' : (findLinkedContacts s lid).head? = some a := ha2
        have hmem := mem_of_head? ha'
        rw [findLinkedContacts, mem_sortContacts, List.mem_filter] at hmem
        exact hmem.1

/-- C5: starting from any well-formed store state in which every identity
cluster (the contacts transitively reachable via `linkedId`) contains
exactly one PRIMARY, a sequential `identify` call leaves every cluster
with exactly one PRIMARY: new contacts are created PRIMARY only when no
cluster matched and SECONDARY (linked to an existing contact) otherwise,
and the merge branch demotes all but the surviving primary under the
survivor. -/
theorem claim_C5_one_primary_per_cluster_preserved (s : DBState)
    (r : IdentifyRequestBody) (now : Nat) (hwf : WF s)
    (hinv : OnePrimaryPerCluster s) :
    WF (identifyContact s r now).2 ∧
      OnePrimaryPerCluster (identifyContact s r now).2 := by
  by_cases hval : r.email = none ∧ r.phoneNumber = none
  · rw [identifyContact_validation s r now hval]
    exact ⟨hwf, hinv⟩
  by_cases hemp : findByEmailOrPhone s r.email r.phoneNumber = []
  · rw [identifyContact_nomatch s r now hval hemp]
    exact ⟨WF_create s r.phoneNumber r.email none LinkPrecedence.primary now hwf
        (fun t ht => Option.noConfusion ht),
      Inv_create_primary s r.phoneNumber r.email now hwf hinv⟩
  by_cases hgt : 1 < ((findByEmailOrPhone s r.email r.phoneNumber).filter fun c =>
      c.linkPrecedence = LinkPrecedence.primary).length
  · rw [identifyContact_merge s r now hgt]
    have hsorted : List.Sorted rowLe
        ((findByEmailOrPhone s r.email r.phoneNumber).filter fun c =>
          c.linkPrecedence = LinkPrecedence.primary) :=
      List.Sorted.filter _ (sorted_findByEmailOrPhone s r.email r.phoneNumber)
    have hpwne : List.Pairwise (fun a b : Contact => a.id ≠ b.id)
        ((findByEmailOrPhone s r.email r.phoneNumber).filter fun c =>
          c.linkPrecedence = LinkPrecedence.primary) :=
      List.Pairwise.sublist (List.filter_sublist _)
        (pairwise_ne_findByEmailOrPhone hwf r.email r.phoneNumber)
    have hsba := sortByCreatedAt_of_sorted hsorted
    cases hp : (findByEmailOrPhone s r.email r.phoneNumber).filter fun c =>
        c.linkPrecedence = LinkPrecedence.primary with
    | nil =>
      rw [hp] at hgt
      simp at hgt
    | cons sv rest =>
      rw [hp] at hsba hpwne
      have hsvp : sv ∈ (findByEmailOrPhone s r.email r.phoneNumber).filter fun c =>
          c.linkPrecedence = LinkPrecedence.primary := by
        rw [hp]
        exact List.mem_cons_self sv rest
      have hsvrow := mem_rows_of_mem_findByEmailOrPhone (List.mem_filter.mp hsvp).1
      have hsvprim : sv.linkPrecedence = LinkPrecedence.primary := by
        have := (List.mem_filter.mp hsvp).2
        simpa using this
      have hpwc := List.pairwise_cons.mp hpwne
      have hsvhyp : ∃ d ∈ s.rows, d.id = sv.id ∧
          d.linkPrecedence = LinkPrecedence.primary ∧ notDeleted d = true :=
        ⟨sv, hsvrow.1, rfl, hsvprim, hsvrow.2⟩
      have hresthyp : ∀ c ∈ rest, c.id ≠ sv.id ∧ ∃ d ∈ s.rows, d.id = c.id ∧
          notDeleted d = true ∧ d.linkPrecedence = LinkPrecedence.primary := by
        intro c hc
        have hcp : c ∈ (findByEmailOrPhone s r.email r.phoneNumber).filter fun c =>
            c.linkPrecedence = LinkPrecedence.primary := by
          rw [hp]
          exact List.mem_cons_of_mem sv hc
        have hcm := mem_rows_of_mem_findByEmailOrPhone (List.mem_filter.mp hcp).1
        have hcprim : c.linkPrecedence = LinkPrecedence.primary := by
          have := (List.mem_filter.mp hcp).2
          simpa using this
        exact ⟨fun h => hpwc.1 c hc h.symm, c, hcm.1, rfl, hcm.2, hcprim⟩
      obtain ⟨s₁, hdem, hwf₁, hinv₁, hnext₁, hsv₁⟩ :=
        Inv_demoteAll sv.id now rest s hwf hinv hsvhyp hresthyp hpwc.2
      rw [mergePrimaryContacts_cons s sv rest (sv :: rest) r now hsba s₁ hdem]
      by_cases hcov : isRequestCoveredByContacts (sv :: rest) r = true
      · rw [if_pos hcov]
        exact ⟨hwf₁, hinv₁⟩
      · rw [if_neg hcov]
        obtain ⟨d, hd, hdid, hdprim, hddel⟩ := hsv₁
        constructor
        · refine WF_create s₁ r.phoneNumber r.email (some sv.id)
            LinkPrecedence.secondary now hwf₁ ?_
          intro t ht
          rw [← Option.some.inj ht, ← hdid]
          exact (hwf₁.2 d hd).1
        · rw [← hdid]
          exact Inv_create_secondary s₁ r.phoneNumber r.email now d hd hwf₁ hinv₁
  · cases han : anchorContact s (findByEmailOrPhone s r.email r.phoneNumber)
        ((findByEmailOrPhone s r.email r.phoneNumber).filter fun c =>
          c.linkPrecedence = LinkPrecedence.primary) with
    | none =>
      rw [identifyContact_direct_none s r now hemp (Nat.not_lt.mp hgt) han]
      exact ⟨hwf, hinv⟩
    | some a =>
      rw [identifyContact_direct s r now a hemp (Nat.not_lt.mp hgt) han]
      by_cases hneed : needsNewSecondaryContact (findLinkedContacts s a.id) r = true
      · rw [if_pos hneed]
        have ham : a ∈ s.rows := anchorContact_mem han
        refine ⟨WF_create s r.phoneNumber r.email (some a.id)
            LinkPrecedence.secondary now hwf ?_,
          Inv_create_secondary s r.phoneNumber r.email now a ham hwf hinv⟩
        intro t ht
        rw [← Option.some.inj ht]
        exact (hwf.2 a ham).1
      · rw [if_neg hneed]
        exact ⟨hwf, hinv⟩

/-- Witness for C5: the empty store trivially satisfies the invariant and
a first identify call preserves it. -/
theorem claim_C5_one_primary_per_cluster_preserved_witness :
    WF (identifyContact ⟨[], 1⟩ ⟨some "a", some "1"⟩ 1).2 ∧
      OnePrimaryPerCluster (identifyContact ⟨[], 1⟩ ⟨some "a", some "1"⟩ 1).2 :=
  claim_C5_one_primary_per_cluster_preserved ⟨[], 1⟩ ⟨some "a", some "1"⟩ 1
    ⟨List.Pairwise.nil, by simp⟩ (by intro c hc; exact absurd hc (List.not_mem_nil c))

end Bitespeed
